import Mathlib

set_option maxRecDepth 40000

/-!
Shallow embedding of the LinkedIn export parser worker
(src/workers/parser.worker.ts, the SHA-1 based revision) together with
proofs about the claims of the specification.

Conventions:
- JavaScript strings are modelled by Lean strings; string indexing and
  ordering agree with JavaScript for the basic-multilingual-plane text the
  parser handles.
- The platform pieces the worker calls into (TextEncoder, crypto.subtle
  SHA-1 digest, the Date parser and Array.prototype.sort) are modelled
  executably; the Date parser takes the host environment offset from UTC in
  minutes as an explicit argument since ECMAScript interprets date-time
  strings without a timezone designator in local time.
-/

/-! ## JavaScript string primitives -/

/-- Characters matched by the JavaScript regular-expression class for
whitespace, which is also the set trimmed by String.prototype.trim. -/
def isJsWs (c : Char) : Bool :=
  c == ' ' || c == '\t' || c == '\n' || c == '\x0b' || c == '\x0c' || c == '\r' ||
  c == ' ' || c == ' ' || (' ' ≤ c && c ≤ ' ') ||
  c == ' ' || c == ' ' || c == ' ' || c == ' ' ||
  c == '　' || c == '﻿'

/-- Dropping one leading byte-order mark, the replace of the BOM regex
anchored at the start of the string. -/
def dropBOM : List Char → List Char
  | [] => []
  | c :: rest => if c = '﻿' then rest else c :: rest

/-- String.prototype.trim on the character list: whitespace removed from
both ends. -/
def jsTrimL (l : List Char) : List Char :=
  List.dropWhile isJsWs (List.reverse (List.dropWhile isJsWs (List.reverse l)))

/-- Each whitespace character replaced by a plain space. -/
def wsToSpace (c : Char) : Char :=
  if isJsWs c then ' ' else c

/-- Helper of squeeze: prev is the last character already kept. -/
def squeezeAux (prev : Char) : List Char → List Char
  | [] => []
  | c :: rest =>
    if prev = ' ' ∧ c = ' ' then squeezeAux prev rest
    else c :: squeezeAux c rest

/-- Merging of runs of spaces into a single space; composed with wsToSpace
this models the global replace of whitespace runs by one space. -/
def squeeze : List Char → List Char
  | [] => []
  | c :: rest => c :: squeezeAux c rest

/-- The list-level body of normalizeText. -/
def normalizeTextL (l : List Char) : List Char :=
  squeeze (List.map wsToSpace (jsTrimL (dropBOM l)))

/-- normalizeText of the worker: empty input passes through the falsy
guard, otherwise the BOM is stripped, the string trimmed and internal
whitespace runs collapsed to one space. -/
def normalizeText (s : String) : String :=
  if s = "" then "" else String.mk (normalizeTextL s.data)

/-- ASCII lower-casing of one character, as String.prototype.toLowerCase
acts on the ASCII range handled by the parser. -/
def lowerCh (c : Char) : Char :=
  if 'A' ≤ c ∧ c ≤ 'Z' then Char.ofNat (c.toNat + 32) else c

/-- Model of String.prototype.toLowerCase. -/
def jsToLower (s : String) : String :=
  String.mk (s.data.map lowerCh)

/-- Boolean prefix test on character lists. -/
def isPrefixOfCL : List Char → List Char → Bool
  | [], _ => true
  | _ :: _, [] => false
  | a :: as, b :: bs => a == b && isPrefixOfCL as bs

/-- Boolean substring test on character lists. -/
def containsCL (needle : List Char) : List Char → Bool
  | [] => isPrefixOfCL needle []
  | hay@(_ :: rest) => isPrefixOfCL needle hay || containsCL needle rest

/-- Model of String.prototype.includes. -/
def containsSubstr (hay needle : String) : Bool :=
  containsCL needle.data hay.data

/-- Model of String.prototype.endsWith. -/
def jsEndsWith (s suf : String) : Bool :=
  isPrefixOfCL suf.data.reverse s.data.reverse

/-- Splitting a character list at every occurrence of a separator
character; mirrors String.prototype.split with a one-character separator,
including the singleton empty piece on empty input. -/
def splitOnCh (sep : Char) : List Char → List (List Char)
  | [] => [[]]
  | c :: rest =>
    let r := splitOnCh sep rest
    if c = sep then [] :: r
    else
      match r with
      | [] => [[c]]
      | h :: t => (c :: h) :: t

/-- String-level split on a one-character separator. -/
def jsSplit (sep : Char) (s : String) : List String :=
  (splitOnCh sep s.data).map String.mk

/-- Array.prototype.join with a separator string. -/
def joinSep (sep : String) : List String → String
  | [] => ""
  | [x] => x
  | x :: y :: rest => x ++ sep ++ joinSep sep (y :: rest)

/-- The last path component, as path.split('/').pop() computes it. -/
def basename (path : String) : String :=
  (jsSplit '/' path).getLastD ""

/-! ## Stable ID generator: SHA-1 digest truncated to 12 hex characters -/

/-- UTF-8 bytes of one character, as TextEncoder emits them. -/
def charUtf8 (c : Char) : List Nat :=
  let n := c.toNat
  if n < 128 then [n]
  else if n < 2048 then [192 + n / 64, 128 + n % 64]
  else if n < 65536 then [224 + n / 4096, 128 + n / 64 % 64, 128 + n % 64]
  else [240 + n / 262144, 128 + n / 4096 % 64, 128 + n / 64 % 64, 128 + n % 64]

/-- Model of TextEncoder().encode. -/
def utf8Encode (s : String) : List Nat :=
  s.data.flatMap charUtf8

/-- Truncation to a 32-bit word. -/
def w32 (n : Nat) : Nat := n % 4294967296

/-- Left rotation of a 32-bit word. -/
def rotl (k x : Nat) : Nat :=
  w32 ((x <<< k) ||| (x >>> (32 - k)))

/-- SHA-1 padding: a 0x80 byte, zeros to 56 mod 64, and the bit length as
an eight-byte big-endian quantity. -/
def sha1Pad (msg : List Nat) : List Nat :=
  let bitLen := msg.length * 8
  let z := (119 - msg.length % 64) % 64
  msg ++ [128] ++ List.replicate z 0 ++
    [bitLen >>> 56 % 256, bitLen >>> 48 % 256, bitLen >>> 40 % 256, bitLen >>> 32 % 256,
     bitLen >>> 24 % 256, bitLen >>> 16 % 256, bitLen >>> 8 % 256, bitLen % 256]

/-- Big-endian grouping of bytes into 32-bit words. -/
def bytesToWords : List Nat → List Nat
  | b0 :: b1 :: b2 :: b3 :: rest =>
    (b0 * 16777216 + b1 * 65536 + b2 * 256 + b3) :: bytesToWords rest
  | _ => []

/-- Fuelled splitter into 64-byte blocks; the fuel only needs to dominate
the number of blocks, each recursive step consumes at least one byte. -/
def chunksAux : Nat → List Nat → List (List Nat)
  | 0, _ => []
  | _ + 1, [] => []
  | fuel + 1, b :: rest => (b :: rest).take 64 :: chunksAux fuel ((b :: rest).drop 64)

/-- Splitting the padded message into 64-byte blocks. -/
def chunks64 (l : List Nat) : List (List Nat) :=
  chunksAux l.length l

/-- The 80-word message schedule of one block. -/
def sha1Schedule (w16 : List Nat) : List Nat :=
  (List.range 64).foldl
    (fun ws _ =>
      let n := ws.length
      ws ++ [rotl 1 (Nat.xor (Nat.xor (ws.getD (n - 3) 0) (ws.getD (n - 8) 0))
        (Nat.xor (ws.getD (n - 14) 0) (ws.getD (n - 16) 0)))])
    w16

/-- Round function of SHA-1. -/
def sha1F (t b c d : Nat) : Nat :=
  if t < 20 then Nat.lor (Nat.land b c) (Nat.land (Nat.xor b 4294967295) d)
  else if t < 40 then Nat.xor (Nat.xor b c) d
  else if t < 60 then Nat.lor (Nat.lor (Nat.land b c) (Nat.land b d)) (Nat.land c d)
  else Nat.xor (Nat.xor b c) d

/-- Round constants of SHA-1. -/
def sha1K (t : Nat) : Nat :=
  if t < 20 then 1518500249
  else if t < 40 then 1859775393
  else if t < 60 then 2400959708
  else 3395469782

/-- The running digest state. -/
structure SHA1State where
  h0 : Nat
  h1 : Nat
  h2 : Nat
  h3 : Nat
  h4 : Nat
deriving DecidableEq

/-- Compression of one 64-byte block into the digest state. -/
def sha1Compress (st : SHA1State) (block : List Nat) : SHA1State :=
  let w := sha1Schedule (bytesToWords block)
  let res := (List.range 80).foldl
    (fun acc t =>
      let a := acc.1
      let b := acc.2.1
      let c := acc.2.2.1
      let d := acc.2.2.2.1
      let e := acc.2.2.2.2
      let temp := w32 (rotl 5 a + sha1F t b c d + e + sha1K t + w.getD t 0)
      (temp, a, rotl 30 b, c, d))
    (st.h0, st.h1, st.h2, st.h3, st.h4)
  ⟨w32 (st.h0 + res.1), w32 (st.h1 + res.2.1), w32 (st.h2 + res.2.2.1),
   w32 (st.h3 + res.2.2.2.1), w32 (st.h4 + res.2.2.2.2)⟩

/-- Big-endian bytes of one 32-bit word. -/
def wordBytes (w : Nat) : List Nat :=
  [w >>> 24 % 256, w >>> 16 % 256, w >>> 8 % 256, w % 256]

/-- The twenty digest bytes of SHA-1 over a byte list. -/
def sha1Bytes (msg : List Nat) : List Nat :=
  let st := (chunks64 (sha1Pad msg)).foldl sha1Compress
    ⟨1732584193, 4023233417, 2562383102, 271733878, 3285377520⟩
  wordBytes st.h0 ++ wordBytes st.h1 ++ wordBytes st.h2 ++
    wordBytes st.h3 ++ wordBytes st.h4

/-- The sixteen lowercase hexadecimal digits. -/
def hexChars : List Char :=
  "0123456789abcdef".data

/-- One hexadecimal digit. -/
def hexDigit (n : Nat) : Char :=
  hexChars.getD n '0'

/-- Two-digit lowercase hexadecimal rendering of one byte, as
b.toString(16).padStart(2, '0') renders byte values. -/
def byteToHex (b : Nat) : List Char :=
  [hexDigit (b / 16 % 16), hexDigit (b % 16)]

/-- Lowercase hex string of a digest. -/
def sha1Hex (msg : List Nat) : List Char :=
  (sha1Bytes msg).flatMap byteToHex

/-- stableHash of the worker: the SHA-1 digest of the UTF-8 bytes of the
input, rendered in lowercase hex and truncated to the first twelve
characters. -/
def stableHash (s : String) : String :=
  String.mk ((sha1Hex (utf8Encode s)).take 12)

/-! ## Timestamp normalizer and the platform Date model

The worker builds Date values from strings and renders them with
toISOString. The Date parser is modelled on the ECMAScript date-time
string grammar for the shapes the worker feeds it: a date, or a date and a
time separated by T or by a space, with optional seconds, optional
milliseconds and an optional Z designator. A string without designator
denotes local wall-clock time, so the model takes the host offset from UTC
in minutes as the argument tz; a trailing Z anchors the string to UTC. -/

/-- Days since the Unix epoch of a civil date, by the standard civil
calendar algorithm. -/
def daysFromCivil (y0 m d : Int) : Int :=
  let y := if m ≤ 2 then y0 - 1 else y0
  let era := Int.ediv y 400
  let yoe := y - era * 400
  let mp := Int.emod (m + 9) 12
  let doy := Int.ediv (153 * mp + 2) 5 + d - 1
  let doe := yoe * 365 + Int.ediv yoe 4 - Int.ediv yoe 100 + doy
  era * 146097 + doe - 719468

/-- Civil date of a count of days since the Unix epoch. -/
def civilFromDays (z0 : Int) : Int × Int × Int :=
  let z := z0 + 719468
  let era := Int.ediv z 146097
  let doe := z - era * 146097
  let yoe := Int.ediv (doe - Int.ediv doe 1460 + Int.ediv doe 36524 - Int.ediv doe 146096) 365
  let y := yoe + era * 400
  let doy := doe - (365 * yoe + Int.ediv yoe 4 - Int.ediv yoe 100)
  let mp := Int.ediv (5 * doy + 2) 153
  let d := doy - Int.ediv (153 * mp + 2) 5 + 1
  let m := mp + (if mp < 10 then 3 else -9)
  (y + (if m ≤ 2 then 1 else 0), m, d)

/-- Decimal digits of a positive number, most significant first. -/
def natDigitsAux : Nat → Nat → List Char
  | 0, _ => []
  | fuel + 1, n => if n = 0 then [] else natDigitsAux fuel (n / 10) ++ [Char.ofNat (48 + n % 10)]

/-- Zero-padded fixed-width decimal rendering. -/
def padNum (w n : Nat) : String :=
  let ds := if n = 0 then ['0'] else natDigitsAux 20 n
  String.mk (List.replicate (w - ds.length) '0' ++ ds)

/-- Date.prototype.toISOString on a count of milliseconds since the
epoch. -/
def toISOString (ms : Int) : String :=
  let days := Int.ediv ms 86400000
  let rem := (Int.emod ms 86400000).toNat
  let c := civilFromDays days
  padNum 4 c.1.toNat ++ "-" ++ padNum 2 c.2.1.toNat ++ "-" ++ padNum 2 c.2.2.toNat ++
    "T" ++ padNum 2 (rem / 3600000) ++ ":" ++ padNum 2 (rem / 60000 % 60) ++
    ":" ++ padNum 2 (rem / 1000 % 60) ++ "." ++ padNum 3 (rem % 1000) ++ "Z"

/-- Reading exactly k decimal digits from the front of a character list. -/
def readDigitsAux : Nat → Nat → List Char → Option (Nat × List Char)
  | 0, acc, l => some (acc, l)
  | _ + 1, _, [] => none
  | k + 1, acc, c :: rest =>
    if '0' ≤ c ∧ c ≤ '9' then readDigitsAux k (acc * 10 + (c.toNat - 48)) rest
    else none

/-- Length of a civil month. -/
def daysInMonth (y m : Int) : Int :=
  if m = 2 then
    if (Int.emod y 4 = 0 ∧ Int.emod y 100 ≠ 0) ∨ Int.emod y 400 = 0 then 29 else 28
  else if m = 4 ∨ m = 6 ∨ m = 9 ∨ m = 11 then 30 else 31

/-- Finishing a parsed wall-clock time: validation and conversion to an
epoch instant, subtracting the host offset when no Z designator anchored
the string to UTC. -/
def finishTime (tz base : Int) (h mi ss ms : Nat) (z : Bool) : Option Int :=
  if h ≤ 23 ∧ mi ≤ 59 ∧ ss ≤ 59 then
    let wall := base + (h * 3600000 + mi * 60000 + ss * 1000 + ms : Nat)
    some (if z then wall else wall - tz * 60000)
  else none

/-- Parsing the seconds, milliseconds and designator tail of a time. -/
def parseTimeTail (tz base : Int) (h mi : Nat) : List Char → Option Int
  | [] => finishTime tz base h mi 0 0 false
  | ['Z'] => finishTime tz base h mi 0 0 true
  | ':' :: r =>
    match readDigitsAux 2 0 r with
    | some (ss, []) => finishTime tz base h mi ss 0 false
    | some (ss, ['Z']) => finishTime tz base h mi ss 0 true
    | some (ss, '.' :: r2) =>
      match readDigitsAux 3 0 r2 with
      | some (ms, []) => finishTime tz base h mi ss ms false
      | some (ms, ['Z']) => finishTime tz base h mi ss ms true
      | _ => none
    | _ => none
  | _ => none

/-- Parsing the time part after the date separator. -/
def parseTimePart (tz base : Int) (l : List Char) : Option Int :=
  match readDigitsAux 2 0 l with
  | some (h, ':' :: r) =>
    match readDigitsAux 2 0 r with
    | some (mi, rest) => parseTimeTail tz base h mi rest
    | none => none
  | _ => none

/-- Model of the platform Date constructor on a string, returning epoch
milliseconds, or none for an invalid date. A bare date is read as UTC
midnight; a date-time without designator is read as local wall-clock
time at the supplied host offset. -/
def jsDateParse (tz : Int) (s : String) : Option Int :=
  match readDigitsAux 4 0 s.data with
  | some (y, '-' :: r1) =>
    match readDigitsAux 2 0 r1 with
    | some (m, '-' :: r2) =>
      match readDigitsAux 2 0 r2 with
      | some (d, rest) =>
        if 1 ≤ (m : Int) ∧ (m : Int) ≤ 12 ∧ 1 ≤ (d : Int) ∧ (d : Int) ≤ daysInMonth y m then
          let base := daysFromCivil y m d * 86400000
          match rest with
          | [] => some base
          | 'T' :: tl => parseTimePart tz base tl
          | ' ' :: tl => parseTimePart tz base tl
          | _ => none
        else none
      | none => none
    | _ => none
  | _ => none

/-- The replace of the trailing whitespace-plus-UTC regex: at least one
whitespace character followed by the letters UTC, case-insensitively, at
the end of the string. -/
def stripUtcSuffix (s : String) : String :=
  match s.data.reverse with
  | c1 :: c2 :: c3 :: c4 :: rest =>
    if (lowerCh c1 = 'c' ∧ lowerCh c2 = 't' ∧ lowerCh c3 = 'u') ∧ isJsWs c4 then
      String.mk ((List.dropWhile isJsWs (c4 :: rest)).reverse)
    else s
  | _ => s

/-- parseTimestamp of the worker: empty input returns the empty sentinel,
otherwise the UTC suffix is stripped, the string trimmed, handed to the
Date parser and rendered with toISOString; an unparseable date yields the
empty sentinel. -/
def parseTimestamp (tz : Int) (dateStr : String) : String :=
  if dateStr = "" then ""
  else
    let cleanDate := String.mk (jsTrimL (stripUtcSuffix dateStr).data)
    match jsDateParse tz cleanDate with
    | none => ""
    | some ms => toISOString ms

/-- getDayBucket of the worker: the date part of the instant, or the
token unknown for the empty sentinel or an unparseable value. -/
def getDayBucket (tz : Int) (ts : String) : String :=
  if ts = "" then "unknown"
  else
    match jsDateParse tz ts with
    | some ms => String.mk ((toISOString ms).data.takeWhile (fun c => c ≠ 'T'))
    | none => "unknown"

/-! ## Header alias resolution -/

/-- An alias is a literal compared with strict equality, or one of the two
regular-expression shapes the worker uses: a case-insensitive full match
or a case-insensitive substring match. -/
inductive Alias
  | exact (s : String)
  | exactCI (s : String)
  | containsCI (s : String)

/-- Matching one alias against one header cell. -/
def aliasMatches : Alias → String → Bool
  | .exact a, h => h == a
  | .exactCI a, h => jsToLower h == jsToLower a
  | .containsCI a, h => containsSubstr (jsToLower h) (jsToLower a)

/-- findHeaderIndex of the worker: the first column whose header matches
some alias. -/
def findHeaderIndex (headers : List String) (aliases : List Alias) : Option Nat :=
  headers.findIdx? (fun h => aliases.any (fun a => aliasMatches a h))

/-- getValueByAliases of the worker: the normalized cell of the resolved
column, or the empty string when no alias resolves. -/
def getValueByAliases (row : List String) (headers : List String)
    (aliases : List Alias) : String :=
  match findHeaderIndex headers aliases with
  | some i => normalizeText (row.getD i "")
  | none => ""

/-- A row keeps only cells that are non-empty after normalization;
rows failing this test are discarded before field extraction. -/
def nonEmptyRow (r : List String) : Bool :=
  r.any (fun c => normalizeText c != "")

/-- Rendering of a Nat in decimal, as template literals render counts. -/
def natToStr (n : Nat) : String := padNum 1 n

/-- The empty string becomes undefined on optional record fields. -/
def orUndef (s : String) : Option String :=
  if s = "" then none else some s

/-! ## Record kinds -/

/-- Contact record. -/
structure Contact where
  id : String
  name : String
  title : Option String
  company : Option String
  location : Option String
  connectedAt : String
  url : Option String
deriving DecidableEq

/-- Message record. -/
structure Message where
  id : String
  threadId : String
  meOrThem : String
  otherId : String
  body : String
  ts : String
deriving DecidableEq

/-- Invite record. -/
structure Invite where
  id : String
  direction : String
  counterpartName : String
  status : String
  message : Option String
  ts : String
deriving DecidableEq

/-- Company follow record. -/
structure CompanyFollow where
  id : String
  company : String
  ts : String
deriving DecidableEq

/-- Saved job record, also receiving job application rows. -/
structure SavedJob where
  id : String
  company : String
  title : String
  ts : String
deriving DecidableEq

/-! ## Connections normalizer -/

/-- Alias lists of the Connections normalizer. -/
def connFirstName : List Alias := [.exact "First Name"]

def connLastName : List Alias := [.exact "Last Name"]

def connUrl : List Alias := [.exact "URL", .exact "Profile URL"]

def connCompany : List Alias := [.exact "Company", .exact "Company Name"]

def connPosition : List Alias := [.exact "Position", .exact "Title", .exact "Job Title"]

def connConnected : List Alias := [.exact "Connected On", .exact "Connected on", .exact "Connected"]

def connLocation : List Alias := [.exact "Location", .exact "City", .exact "City, State", .exact "City/Region"]

/-- Fuelled scan for a header row: at most fuel rows are examined for a
cell that normalizes to the marker; a match returns the row index and the
normalized header cells. -/
def findMarkerAux (marker : String) : Nat → Nat → List (List String) →
    Option (Nat × List String)
  | 0, _, _ => none
  | _ + 1, _, [] => none
  | fuel + 1, i, r :: rest =>
    if r.any (fun cell => normalizeText cell == marker) then
      some (i, r.map normalizeText)
    else findMarkerAux marker fuel (i + 1) rest

/-- The header scan of the Connections normalizer: the marker is a cell
equal to First Name and the window is ten rows. -/
def findConnHeader (rawData : List (List String)) : Option (Nat × List String) :=
  findMarkerAux "First Name" 10 0 rawData

/-- One Connections data row turned into a Contact; no admission check,
missing fields fall back to defaults. -/
def contactOfRow (tz : Int) (headers row : List String) : Contact :=
  let firstName := getValueByAliases row headers connFirstName
  let lastName := getValueByAliases row headers connLastName
  let url := getValueByAliases row headers connUrl
  let company := getValueByAliases row headers connCompany
  let position := getValueByAliases row headers connPosition
  let connectedOn := getValueByAliases row headers connConnected
  let location := getValueByAliases row headers connLocation
  let name0 := String.mk (jsTrimL (firstName ++ " " ++ lastName).data)
  let name := if name0 = "" then "Unknown" else name0
  let connectedAt := parseTimestamp tz connectedOn
  let idSource := if url ≠ "" then url else name ++ "|" ++ company ++ "|" ++ connectedAt
  { id := stableHash idSource, name := name, title := orUndef position,
    company := orUndef company, location := orUndef location,
    connectedAt := connectedAt, url := orUndef url }

/-- The warning a Connections row emits for a non-empty date that fails to
parse. -/
def contactRowWarnings (tz : Int) (headers row : List String) : List String :=
  let connectedOn := getValueByAliases row headers connConnected
  if connectedOn ≠ "" ∧ parseTimestamp tz connectedOn = "" then
    ["Connections: Could not parse date \"" ++ connectedOn ++ "\""]
  else []

/-- processConnections of the worker: header scan, preamble discard,
per-row normalization and ordered diagnostics. -/
def processConnections (tz : Int) (rawData : List (List String)) (fileName : String) :
    List Contact × List String :=
  match findConnHeader rawData with
  | none =>
    ([], ["Connections: Could not find header row with \"First Name\" in " ++ fileName])
  | some (idx, headers) =>
    let dataRows := (rawData.drop (idx + 1)).filter nonEmptyRow
    let contacts := dataRows.map (contactOfRow tz headers)
    (contacts,
      ["Connections: Detected headers: " ++ joinSep " | " headers,
       "Connections: " ++ natToStr dataRows.length ++ " data rows found in " ++ fileName] ++
      dataRows.flatMap (contactRowWarnings tz headers) ++
      ["Connections: " ++ natToStr contacts.length ++ " contacts processed from " ++ fileName])

/-! ## Messages normalizer -/

/-- Alias lists of the Messages normalizer; the optional trailing S of the
recipient-URLs pattern makes it a plain substring match on the singular
form. -/
def msgConvoId : List Alias := [.exactCI "CONVERSATION ID"]

def msgFrom : List Alias := [.exactCI "FROM"]

def msgTo : List Alias := [.exactCI "TO"]

def msgFromUrl : List Alias := [.containsCI "SENDER PROFILE URL"]

def msgToUrls : List Alias := [.containsCI "RECIPIENT PROFILE URL"]

def msgDate : List Alias := [.exactCI "DATE", .containsCI "Sent On"]

def msgContent : List Alias := [.exactCI "CONTENT", .containsCI "Message"]

/-- The recipient-URL column split on commas, normalized, empties
dropped. -/
def recipientsOf (recipientUrls : String) : List String :=
  ((jsSplit ',' recipientUrls).map normalizeText).filter (fun u => u != "")

/-- Array.prototype.sort on strings; the default comparator is the
lexicographic order on the text, which the string order of the embedding
realizes for the basic-multilingual-plane text handled here. -/
def sortJS (l : List String) : List String :=
  List.insertionSort (fun a b => a ≤ b) l

/-- The thread key resolution of the worker: the explicit conversation
identifier verbatim when non-empty; else one recipient hashes that URL,
several recipients hash the sorted pipe-joined list, and no recipient
hashes participant and day bucket. -/
def resolveThreadId (tz : Int) (conversationId toF frm ts recipientUrls : String) : String :=
  if conversationId ≠ "" then conversationId
  else
    match recipientsOf recipientUrls with
    | [] =>
      let participant := if toF ≠ "" then toF else frm
      stableHash (participant ++ "|" ++ getDayBucket tz ts)
    | [u] => stableHash u
    | us => stableHash (joinSep "|" (sortJS us))

/-- One Messages data row turned into a Message; rows with an empty body
are dropped silently. -/
def msgOfRow (tz : Int) (headers row : List String) : Option Message :=
  let conversationId := getValueByAliases row headers msgConvoId
  let frm := getValueByAliases row headers msgFrom
  let toF := getValueByAliases row headers msgTo
  let senderUrl := getValueByAliases row headers msgFromUrl
  let recipientUrls := getValueByAliases row headers msgToUrls
  let date := getValueByAliases row headers msgDate
  let content := getValueByAliases row headers msgContent
  if content = "" then none
  else
    let ts := parseTimestamp tz date
    let meOrThem := if containsSubstr (jsToLower frm) "you" then "me" else "them"
    let threadId := resolveThreadId tz conversationId toF frm ts recipientUrls
    let otherId :=
      if meOrThem = "them" then senderUrl else (recipientsOf recipientUrls).headD ""
    some { id := stableHash (threadId ++ "|" ++ ts ++ "|" ++ String.mk (content.data.take 40)),
           threadId := threadId, meOrThem := meOrThem, otherId := otherId,
           body := content, ts := ts }

/-- The warning a Messages row emits for a non-empty date that fails to
parse; dropped rows emit nothing. -/
def msgRowWarnings (tz : Int) (headers row : List String) : List String :=
  let date := getValueByAliases row headers msgDate
  let content := getValueByAliases row headers msgContent
  if content = "" then []
  else if date ≠ "" ∧ parseTimestamp tz date = "" then
    ["Messages: Could not parse date \"" ++ date ++ "\""]
  else []

/-- processMessages of the worker: the first row is taken as the header
unconditionally, remaining non-empty rows are normalized. -/
def processMessages (tz : Int) (rawData : List (List String)) (fileName : String) :
    List Message × List String :=
  if rawData.length < 2 then ([], ["Messages: Insufficient data in " ++ fileName])
  else
    let headers := (rawData.headD []).map normalizeText
    let dataRows := (rawData.drop 1).filter nonEmptyRow
    let msgs := dataRows.filterMap (msgOfRow tz headers)
    (msgs,
      ["Messages: Detected headers: " ++ joinSep " | " headers,
       "Messages: " ++ natToStr dataRows.length ++ " data rows found in " ++ fileName] ++
      dataRows.flatMap (msgRowWarnings tz headers) ++
      ["Messages: " ++ natToStr msgs.length ++ " messages processed from " ++ fileName])

/-! ## Invitations normalizer -/

/-- Alias lists of the Invitations normalizer. -/
def invFrom : List Alias := [.exact "From"]

def invTo : List Alias := [.exact "To"]

def invSentAt : List Alias := [.exact "Sent At", .exact "Date", .exact "Sent On"]

def invMessage : List Alias := [.exact "Message", .exact "Note"]

def invDirection : List Alias := [.exact "Direction", .exact "Type"]

/-- One Invitations data row turned into an Invite; rows with both
participant fields empty are dropped silently. -/
def inviteOfRow (tz : Int) (headers row : List String) : Option Invite :=
  let frm := getValueByAliases row headers invFrom
  let toF := getValueByAliases row headers invTo
  let sentAt := getValueByAliases row headers invSentAt
  let message := getValueByAliases row headers invMessage
  let direction := getValueByAliases row headers invDirection
  if frm = "" ∧ toF = "" then none
  else
    let ts := parseTimestamp tz sentAt
    let inviteDirection :=
      if containsSubstr (jsToLower direction) "outgoing" then "sent"
      else if containsSubstr (jsToLower direction) "incoming" then "received"
      else if containsSubstr (jsToLower frm) "you" then "sent" else "received"
    let counterpartName := if inviteDirection = "sent" then toF else frm
    some { id := stableHash (inviteDirection ++ "|" ++ counterpartName ++ "|" ++ ts),
           direction := inviteDirection, counterpartName := counterpartName,
           status := "unknown", message := orUndef message, ts := ts }

/-- The warning an Invitations row emits for a non-empty date that fails
to parse. -/
def inviteRowWarnings (tz : Int) (headers row : List String) : List String :=
  let frm := getValueByAliases row headers invFrom
  let toF := getValueByAliases row headers invTo
  if frm = "" ∧ toF = "" then []
  else
    let sentAt := getValueByAliases row headers invSentAt
    if sentAt ≠ "" ∧ parseTimestamp tz sentAt = "" then
      ["Invitations: Could not parse date \"" ++ sentAt ++ "\""]
    else []

/-- processInvitations of the worker. -/
def processInvitations (tz : Int) (rawData : List (List String)) (fileName : String) :
    List Invite × List String :=
  if rawData.length < 2 then ([], ["Invitations: Insufficient data in " ++ fileName])
  else
    let headers := (rawData.headD []).map normalizeText
    let dataRows := (rawData.drop 1).filter nonEmptyRow
    let invites := dataRows.filterMap (inviteOfRow tz headers)
    (invites,
      ["Invitations: Detected headers: " ++ joinSep " | " headers,
       "Invitations: " ++ natToStr dataRows.length ++ " data rows found in " ++ fileName] ++
      dataRows.flatMap (inviteRowWarnings tz headers) ++
      ["Invitations: " ++ natToStr invites.length ++ " invitations processed from " ++ fileName])

/-! ## Company follows normalizer -/

/-- Alias lists of the Company Follows normalizer. -/
def cfOrg : List Alias := [.exact "Organization", .exact "Company"]

def cfFollowed : List Alias := [.exact "Followed On", .exact "Date"]

/-- One Company Follows data row turned into a CompanyFollow; rows without
an organization are dropped silently. -/
def followOfRow (tz : Int) (headers row : List String) : Option CompanyFollow :=
  let organization := getValueByAliases row headers cfOrg
  if organization = "" then none
  else
    let ts := parseTimestamp tz (getValueByAliases row headers cfFollowed)
    some { id := stableHash (organization ++ "|" ++ ts), company := organization, ts := ts }

/-- The warning a Company Follows row emits for a non-empty date that
fails to parse. -/
def followRowWarnings (tz : Int) (headers row : List String) : List String :=
  let organization := getValueByAliases row headers cfOrg
  if organization = "" then []
  else
    let followedOn := getValueByAliases row headers cfFollowed
    if followedOn ≠ "" ∧ parseTimestamp tz followedOn = "" then
      ["Company Follows: Could not parse date \"" ++ followedOn ++ "\""]
    else []

/-- processCompanyFollows of the worker. -/
def processCompanyFollows (tz : Int) (rawData : List (List String)) (fileName : String) :
    List CompanyFollow × List String :=
  if rawData.length < 2 then ([], ["Company Follows: Insufficient data in " ++ fileName])
  else
    let headers := (rawData.headD []).map normalizeText
    let dataRows := (rawData.drop 1).filter nonEmptyRow
    let follows := dataRows.filterMap (followOfRow tz headers)
    (follows,
      ["Company Follows: Detected headers: " ++ joinSep " | " headers,
       "Company Follows: " ++ natToStr dataRows.length ++ " data rows found in " ++ fileName] ++
      dataRows.flatMap (followRowWarnings tz headers) ++
      ["Company Follows: " ++ natToStr follows.length ++ " follows processed from " ++ fileName])

/-! ## Saved jobs normalizer -/

/-- Alias lists of the Saved Jobs and Job Applications normalizer. -/
def sjTitle : List Alias := [.exact "Title", .exact "Job Title"]

def sjCompany : List Alias := [.exact "Company", .exact "Company Name"]

def sjDate : List Alias :=
  [.exact "Saved On", .exact "Date", .exact "Applied On", .exact "Application Date",
   .exact "Created On"]

/-- One Saved Jobs data row turned into a SavedJob; a row is admitted when
title or company is present, the missing one defaults to Unknown on the
record, and the identity hash is computed over the extracted fields. -/
def jobOfRow (tz : Int) (headers row : List String) : Option SavedJob :=
  let title := getValueByAliases row headers sjTitle
  let company := getValueByAliases row headers sjCompany
  let dateValue := getValueByAliases row headers sjDate
  if title = "" ∧ company = "" then none
  else
    let ts := parseTimestamp tz dateValue
    some { id := stableHash (company ++ "|" ++ title ++ "|" ++ ts),
           company := if company = "" then "Unknown" else company,
           title := if title = "" then "Unknown" else title, ts := ts }

/-- The warning a Saved Jobs row emits for a non-empty date that fails to
parse. -/
def jobRowWarnings (tz : Int) (fileType : String) (headers row : List String) : List String :=
  let title := getValueByAliases row headers sjTitle
  let company := getValueByAliases row headers sjCompany
  if title = "" ∧ company = "" then []
  else
    let dateValue := getValueByAliases row headers sjDate
    if dateValue ≠ "" ∧ parseTimestamp tz dateValue = "" then
      [fileType ++ ": Could not parse date \"" ++ dateValue ++ "\""]
    else []

/-- processSavedJobs of the worker, shared by the Saved Jobs and Job
Applications kinds. -/
def processSavedJobs (tz : Int) (rawData : List (List String)) (fileName : String)
    (isApplications : Bool) : List SavedJob × List String :=
  let fileType := if isApplications then "Job Applications" else "Saved Jobs"
  if rawData.length < 2 then ([], [fileType ++ ": Insufficient data in " ++ fileName])
  else
    let headers := (rawData.headD []).map normalizeText
    let dataRows := (rawData.drop 1).filter nonEmptyRow
    let jobs := dataRows.filterMap (jobOfRow tz headers)
    (jobs,
      [fileType ++ ": Detected headers: " ++ joinSep " | " headers,
       fileType ++ ": " ++ natToStr dataRows.length ++ " data rows found in " ++ fileName] ++
      dataRows.flatMap (jobRowWarnings tz fileType headers) ++
      [fileType ++ ": " ++ natToStr jobs.length ++ " jobs processed from " ++ fileName])

/-! ## Tabular readers, archive extraction and the worker entry point

The delimited-text reader is modelled on the configuration the worker
passes to the CSV library: no header handling, no empty-line skipping and
the per-cell normalizeText transform; the model reads plain
comma-separated text, the shape of the exports the worker handles. The
spreadsheet reader is modelled on the worker wrapper around the decoded
first worksheet, carried in the input as a matrix of cells. -/

/-- parseCSV of the worker on raw text. -/
def parseCSV (content : String) : List (List String) :=
  (jsSplit '\n' content).map (fun line => (jsSplit ',' line).map normalizeText)

/-- parseXLSX of the worker on the decoded first worksheet. -/
def parseXLSX (sheet : List (List String)) : List (List String) :=
  sheet.map (fun r => r.map normalizeText)

/-- The content of one file: delimited text, or the decoded first
worksheet of a spreadsheet. -/
inductive FileData
  | text (content : String)
  | sheet (rows : List (List String))
deriving DecidableEq

/-- One entry of a ZIP archive. -/
structure ZipEntry where
  path : String
  isDir : Bool
  data : FileData
deriving DecidableEq

/-- One file handed to the worker; entries is the archive content used
when the file name ends in .zip, data the content used otherwise. -/
structure InputFile where
  name : String
  entries : List ZipEntry := []
  data : FileData := FileData.text ""
deriving DecidableEq

/-- The canonical-messages test of the worker: base name equal to
messages.csv case-insensitively, or a path ending in /messages.csv. -/
def isCanonicalMessages (fileName : String) : Bool :=
  jsToLower (basename fileName) == "messages.csv" ||
    jsEndsWith (jsToLower fileName) "/messages.csv"

/-- The six canonical substrings recognized in file names. -/
def relevantPatterns : List String :=
  ["connections", "messages", "invitations", "company follows", "saved jobs",
   "job applications"]

/-- Relevance test on a lowercased file name. -/
def isRelevantFile (lowerName : String) : Bool :=
  relevantPatterns.any (fun p => containsSubstr lowerName p)

/-- extractZipFiles of the worker: directories skipped, non-canonical
messages entries skipped silently, relevant csv and xlsx entries kept in
archive order. -/
def extractZipFiles (entries : List ZipEntry) : List (String × FileData) :=
  entries.filterMap fun e =>
    if e.isDir then none
    else
      let lowerName := jsToLower e.path
      if containsSubstr lowerName "messages" ∧ ¬ isCanonicalMessages e.path then none
      else if isRelevantFile lowerName then
        if jsEndsWith e.path ".csv" then some (e.path, e.data)
        else if jsEndsWith e.path ".xlsx" then some (e.path, e.data)
        else none
      else none

/-- The diagnostics summary of the aggregate result. -/
structure Summary where
  filesProcessed : List String
  rows : List (String × Nat)
  warnings : List String
deriving DecidableEq

/-- The aggregate result of one parse invocation. -/
structure ParsedPayload where
  contacts : List Contact
  messages : List Message
  invites : List Invite
  companyFollows : List CompanyFollow
  savedJobs : List SavedJob
  summary : Summary
deriving DecidableEq

/-- The fresh payload each invocation starts from. -/
def emptyPayload : ParsedPayload :=
  ⟨[], [], [], [], [], ⟨[], [], []⟩⟩

/-- Appending one warning to the diagnostics. -/
def addWarning (p : ParsedPayload) (w : String) : ParsedPayload :=
  { p with summary := { p.summary with warnings := p.summary.warnings ++ [w] } }

/-- Appending many warnings to the diagnostics. -/
def addWarnings (p : ParsedPayload) (ws : List String) : ParsedPayload :=
  { p with summary := { p.summary with warnings := p.summary.warnings ++ ws } }

/-- Assignment to one key of the rows object: the value of a present key
is replaced in place, a new key is appended. -/
def rowsUpsert (rows : List (String × Nat)) (k : String) (v : Nat) : List (String × Nat) :=
  if rows.any (fun kv => kv.1 == k) then
    rows.map (fun kv => if kv.1 == k then (k, v) else kv)
  else rows ++ [(k, v)]

/-- One entry of the list of files to process, with the name of the blob
it came from. -/
structure ProcFile where
  name : String
  data : FileData
  originalName : String
deriving DecidableEq

/-- The gathering phase of the worker handler for one input file: archives
are extracted, direct files are screened for auxiliary messages names,
relevance and extension. -/
def gatherOne (acc : List ProcFile × ParsedPayload) (f : InputFile) :
    List ProcFile × ParsedPayload :=
  let fs := acc.1
  let p := acc.2
  if jsEndsWith (jsToLower f.name) ".zip" then
    let ex := extractZipFiles f.entries
    (fs ++ ex.map (fun e => ⟨e.1, e.2, f.name⟩),
     addWarning p ("Extracted " ++ natToStr ex.length ++ " files from " ++ f.name))
  else
    let fileName := jsToLower f.name
    if containsSubstr fileName "messages" ∧ ¬ isCanonicalMessages f.name then
      (fs, addWarning p ("Ignoring auxiliary messages file " ++ basename f.name))
    else if isRelevantFile fileName then
      if jsEndsWith fileName ".csv" then (fs ++ [⟨f.name, f.data, f.name⟩], p)
      else if jsEndsWith fileName ".xlsx" then (fs ++ [⟨f.name, f.data, f.name⟩], p)
      else (fs, p)
    else (fs, addWarning p ("Unrecognized file: " ++ f.name))

/-- The file-type chain of the processing loop, on the lowercased name. -/
def classify (fileName : String) : Option String :=
  if containsSubstr fileName "connections" then some "Connections"
  else if containsSubstr fileName "messages" then some "messages"
  else if containsSubstr fileName "invitations" then some "Invitations"
  else if containsSubstr fileName "company follows" then some "Company Follows"
  else if containsSubstr fileName "saved jobs" then some "Saved Jobs"
  else if containsSubstr fileName "job applications" then some "Job Applications"
  else none

/-- Reading one file into its raw row matrix, by extension. -/
def parseData (lowerName : String) (d : FileData) : Option (List (List String)) :=
  if jsEndsWith lowerName ".csv" then
    match d with
    | .text t => some (parseCSV t)
    | .sheet _ => none
  else if jsEndsWith lowerName ".xlsx" then
    match d with
    | .sheet m => some (parseXLSX m)
    | .text _ => none
  else none

/-- The processing loop of the worker handler for one gathered file:
auxiliary messages screening, file-type classification, reading, the
diagnostics pushes, and dispatch to the record normalizer. The four
scalar-collection kinds assign their collection, the two job kinds append
to the shared savedJobs collection. -/
def processOneFile (tz : Int) (p : ParsedPayload) (f : ProcFile) : ParsedPayload :=
  let fileName := jsToLower f.name
  if containsSubstr fileName "messages" ∧ ¬ isCanonicalMessages f.name then
    addWarning p ("Ignoring auxiliary messages file " ++ basename f.name)
  else
    match classify fileName with
    | none => addWarning p ("Unrecognized file: " ++ f.name)
    | some fileType =>
      match parseData fileName f.data with
      | none => addWarning p ("Unsupported file format: " ++ f.name)
      | some data =>
        let p1 := { p with summary := { p.summary with
          filesProcessed :=
            p.summary.filesProcessed ++ [fileType ++ " (" ++ f.originalName ++ ")"],
          rows := rowsUpsert p.summary.rows fileType data.length } }
        if fileType = "Connections" then
          let r := processConnections tz data f.name
          { addWarnings p1 r.2 with contacts := r.1 }
        else if fileType = "messages" then
          let r := processMessages tz data f.name
          { addWarnings p1 r.2 with messages := r.1 }
        else if fileType = "Invitations" then
          let r := processInvitations tz data f.name
          { addWarnings p1 r.2 with invites := r.1 }
        else if fileType = "Company Follows" then
          let r := processCompanyFollows tz data f.name
          { addWarnings p1 r.2 with companyFollows := r.1 }
        else if fileType = "Saved Jobs" then
          let r := processSavedJobs tz data f.name false
          { addWarnings p1 r.2 with savedJobs := p1.savedJobs ++ r.1 }
        else
          let r := processSavedJobs tz data f.name true
          { addWarnings p1 r.2 with savedJobs := p1.savedJobs ++ r.1 }

/-- The worker message handler: one invocation builds a fresh payload,
gathers the files and processes them in order. -/
def runParser (tz : Int) (files : List InputFile) : ParsedPayload :=
  let g := files.foldl gatherOne ([], emptyPayload)
  g.1.foldl (processOneFile tz) g.2

/-- An archive holding one auxiliary messages entry: the path contains
messages but the entry is not named messages.csv. -/
def c2File : InputFile :=
  { name := "export.zip",
    entries := [⟨"messages_old.csv", false,
      FileData.text "CONVERSATION ID,CONTENT\nabc,hello"⟩] }

/-- Demonstration input of the determinism claim. -/
def c3Files : List InputFile :=
  [{ name := "Connections.csv",
     data := FileData.text "First Name,Last Name\nBob,B" }]

/-- Two Connections files handed to one invocation. -/
def c5Files : List InputFile :=
  [{ name := "Connections.csv",
     data := FileData.text "First Name,Last Name,URL,Company,Position,Connected On\nAlice,A,,Acme,Eng,\n" },
   { name := "connections2.csv",
     data := FileData.text "First Name,Last Name\nBob,B" }]

/-- The auxiliary-messages screen of the processing loop passes the
file. -/
def auxScreened (f : ProcFile) : Prop :=
  ¬(containsSubstr (jsToLower f.name) "messages" ∧ ¬ isCanonicalMessages f.name)

instance (f : ProcFile) : Decidable (auxScreened f) :=
  inferInstanceAs (Decidable (¬(containsSubstr (jsToLower f.name) "messages" ∧
    ¬ isCanonicalMessages f.name)))

/-- A Saved Jobs file for the accumulation witness. -/
def c5JobFile : ProcFile :=
  ⟨"Saved Jobs.csv", FileData.text "Company,Title\nAcme,Eng", "Saved Jobs.csv"⟩

/-- The parsed rows of the witness file. -/
def c5JobData : List (List String) := parseCSV "Company,Title\nAcme,Eng"

/-- Header row and two data rows of the C8 witness, differing in company,
position and instant but not in URL. -/
def c8Headers : List String :=
  ["First Name", "Last Name", "URL", "Company", "Position", "Connected On"]

def c8Row1 : List String := ["Alice", "A", "https://a", "Acme", "Eng", "02 Jan 2024"]

def c8Row2 : List String := ["Alice", "A", "https://a", "Globex", "Mgr", "2020-05-05"]

/-- A saved-jobs row with a title and no company for the C9 witness. -/
def c9Headers : List String := ["Company", "Title", "Saved On"]

def c9Row : List String := ["", "Engineer", ""]

/-- The position of a hex digit in the alphabet. -/
def hexVal : Char → Nat
  | '1' => 1 | '2' => 2 | '3' => 3 | '4' => 4 | '5' => 5
  | '6' => 6 | '7' => 7 | '8' => 8 | '9' => 9 | 'a' => 10
  | 'b' => 11 | 'c' => 12 | 'd' => 13 | 'e' => 14 | 'f' => 15
  | _ => 0

/-- The map of a stable-hash output into twelve hex positions. -/
def hashCode (x : String) (i : Fin 12) : Fin 16 :=
  ⟨hexVal (x.data.getD i '0') % 16, Nat.mod_lt _ (by omega)⟩

/-- Following the specification wording of the header resolver for the
messages kind, for comparison with the code: scan at most the first ten
rows for the marker cell identifying the true header, a cell equal to the
canonical CONTENT header after normalization; discard the rows before the
matched header as preamble and process from the matched header row on; no
header inside the window yields zero records and a warning. -/
def specProcessMessagesScan (tz : Int) (rawData : List (List String))
    (fileName : String) : List Message × List String :=
  match findMarkerAux "CONTENT" 10 0 rawData with
  | none => ([], ["Messages: Could not find header row in " ++ fileName])
  | some (i, _) => processMessages tz (rawData.drop i) fileName

/-- A messages input whose true header sits at the second row behind one
preamble row. -/
def c7Raw : List (List String) := [["note"], ["CONTENT"], ["hi"]]

/-- No two adjacent spaces. -/
def nodouble (a b : Char) : Prop := ¬(a = ' ' ∧ b = ' ')

instance (a b : Char) : Decidable (nodouble a b) :=
  inferInstanceAs (Decidable (¬(a = ' ' ∧ b = ' ')))

/-- The shape of normalized text: whitespace only as single interior
spaces, none at either end. -/
def NormalizedL (l : List Char) : Prop :=
  (∀ c ∈ l, isJsWs c = true → c = ' ') ∧ List.Chain' nodouble l ∧
    l.head? ≠ some ' ' ∧ l.getLast? ≠ some ' '

instance (l : List Char) : Decidable (NormalizedL l) :=
  inferInstanceAs (Decidable ((∀ c ∈ l, isJsWs c = true → c = ' ') ∧
    List.Chain' nodouble l ∧ l.head? ≠ some ' ' ∧ l.getLast? ≠ some ' '))

/-- String-level normalized shape. -/
def NormalizedS (s : String) : Prop := NormalizedL s.data

instance (s : String) : Decidable (NormalizedS s) :=
  inferInstanceAs (Decidable (NormalizedL s.data))

/-- Concrete Connections input of the C10 witness. -/
def c10Raw : List (List String) := [["First Name", "Last Name"], ["Bob", "B"]]

/-- The contact the witness input produces. -/
def c10Contact : Contact := contactOfRow 0 ["First Name", "Last Name"] ["Bob", "B"]

/-! ## Claim C2: auxiliary messages entries in an archive -/

/-- C2: an archive entry whose path contains messages without being the
canonical messages.csv yields zero message records, but the run records no
warning at all for the entry: extraction drops it silently, so the
warnings list holds only the extraction count line and no line mentioning
the entry. -/
theorem c2_code_eval :
    (runParser 0 [c2File]).messages = [] ∧
    (runParser 0 [c2File]).summary.warnings = ["Extracted 0 files from export.zip"] ∧
    ((runParser 0 [c2File]).summary.warnings.filter
      (fun w => containsSubstr w "messages_old")).length = 0 := by
  refine ⟨by decide, by decide, by decide⟩

/-! ## Claim C3: determinism of the parse invocation -/

/-- C3: the aggregate result, its five record lists with every identity
hash and its summary, is a pure function of the input blobs and the host
environment; byte-identical input yields the identical payload. -/
theorem c3_determinism (tz : Int) (files1 files2 : List InputFile)
    (h : files1 = files2) : runParser tz files1 = runParser tz files2 := by
  rw [h]

/-- Witness of C3 at a concrete input. -/
theorem c3_determinism_witness : runParser 0 c3Files = runParser 0 c3Files :=
  c3_determinism 0 c3Files c3Files rfl

/-! ## Claim C5: accumulation across files of one invocation -/

/-- C5 counterexample: both Connections files are processed, yet the
aggregate result holds only the second file's contact, and the per-label
row count holds only the second file's raw row count. -/
theorem c5_counterexample :
    (runParser 0 c5Files).summary.filesProcessed =
      ["Connections (Connections.csv)", "Connections (connections2.csv)"] ∧
    (runParser 0 c5Files).contacts.map (fun c => c.name) = ["Bob B"] ∧
    (runParser 0 c5Files).summary.rows = [("Connections", 2)] := by
  refine ⟨by decide, by decide, by decide⟩

/-- C5 amended: within one invocation, records accumulate across files
only in the savedJobs collection, which both job kinds append to in
processing order; each of the other four kinds replaces its collection
with the latest file's records, and the per-label row count is replaced
likewise; collections of kinds other than the processed one are left
untouched. -/
theorem c5_amended (tz : Int) (p : ParsedPayload) (f : ProcFile)
    (data : List (List String)) (haux : auxScreened f)
    (hdata : parseData (jsToLower f.name) f.data = some data) :
    (∀ ft, classify (jsToLower f.name) = some ft →
      (processOneFile tz p f).summary.rows = rowsUpsert p.summary.rows ft data.length) ∧
    (classify (jsToLower f.name) = some "Connections" →
      (processOneFile tz p f).contacts = (processConnections tz data f.name).1 ∧
      (processOneFile tz p f).messages = p.messages ∧
      (processOneFile tz p f).invites = p.invites ∧
      (processOneFile tz p f).companyFollows = p.companyFollows ∧
      (processOneFile tz p f).savedJobs = p.savedJobs) ∧
    (classify (jsToLower f.name) = some "messages" →
      (processOneFile tz p f).messages = (processMessages tz data f.name).1 ∧
      (processOneFile tz p f).contacts = p.contacts ∧
      (processOneFile tz p f).savedJobs = p.savedJobs) ∧
    (classify (jsToLower f.name) = some "Invitations" →
      (processOneFile tz p f).invites = (processInvitations tz data f.name).1 ∧
      (processOneFile tz p f).contacts = p.contacts ∧
      (processOneFile tz p f).savedJobs = p.savedJobs) ∧
    (classify (jsToLower f.name) = some "Company Follows" →
      (processOneFile tz p f).companyFollows = (processCompanyFollows tz data f.name).1 ∧
      (processOneFile tz p f).contacts = p.contacts ∧
      (processOneFile tz p f).savedJobs = p.savedJobs) ∧
    (classify (jsToLower f.name) = some "Saved Jobs" →
      (processOneFile tz p f).savedJobs =
        p.savedJobs ++ (processSavedJobs tz data f.name false).1 ∧
      (processOneFile tz p f).contacts = p.contacts ∧
      (processOneFile tz p f).messages = p.messages) ∧
    (classify (jsToLower f.name) = some "Job Applications" →
      (processOneFile tz p f).savedJobs =
        p.savedJobs ++ (processSavedJobs tz data f.name true).1 ∧
      (processOneFile tz p f).contacts = p.contacts ∧
      (processOneFile tz p f).messages = p.messages) := by
  have hscreen : ¬(containsSubstr (jsToLower f.name) "messages" = true ∧
      ¬ isCanonicalMessages f.name = true) := haux
  refine ⟨?_, ?_, ?_, ?_, ?_, ?_, ?_⟩
  case refine_1 =>
    intro ft hcls
    simp only [processOneFile, hscreen, if_false, hcls, hdata]
    repeat' split
    all_goals rfl
  all_goals
    intro hcls
    simp only [processOneFile, hscreen, if_false, hcls, hdata]
    simp [addWarnings]

/-- Witness of the amended C5 at a concrete file. -/
theorem c5_amended_witness :
    auxScreened c5JobFile ∧
    parseData (jsToLower c5JobFile.name) c5JobFile.data = some c5JobData ∧
    classify (jsToLower c5JobFile.name) = some "Saved Jobs" ∧
    (processOneFile 0 emptyPayload c5JobFile).savedJobs =
      emptyPayload.savedJobs ++ (processSavedJobs 0 c5JobData c5JobFile.name false).1 :=
  ⟨by decide, rfl, by decide,
    ((c5_amended 0 emptyPayload c5JobFile c5JobData (by decide) rfl).2.2.2.2.2.1
      (by decide)).1⟩

/-! ## Claim C6: the timestamp normalizer on the reference inputs -/

/-- C6 counterexample: in a host environment one hour east of UTC the
worker parses the stripped date-time as local wall-clock time, so the
normalized instant is 09:00Z, an instant different from the moment
2024-01-02T10:00:00Z the input names. -/
theorem c6_counterexample :
    parseTimestamp 60 "2024-01-02 10:00:00 UTC" = "2024-01-02T09:00:00.000Z" ∧
    jsDateParse 60 "2024-01-02T09:00:00.000Z" = some 1704186000000 ∧
    jsDateParse 60 "2024-01-02T10:00:00Z" = some 1704189600000 ∧
    (1704186000000 : Int) ≠ 1704189600000 := by
  refine ⟨by decide, by decide, by decide, by decide⟩

/-- C6 amended: the normalizer strips the trailing UTC suffix, trims and
parses; in a host environment at offset zero the reference input yields
the zero-offset instant string naming the moment 2024-01-02T10:00:00Z,
and the empty string yields the empty sentinel at every offset. -/
theorem c6_amended :
    parseTimestamp 0 "2024-01-02 10:00:00 UTC" = "2024-01-02T10:00:00.000Z" ∧
    jsDateParse 0 "2024-01-02T10:00:00.000Z" = some 1704189600000 ∧
    jsDateParse 0 "2024-01-02T10:00:00Z" = some 1704189600000 ∧
    stripUtcSuffix "2024-01-02 10:00:00 UTC" = "2024-01-02 10:00:00" ∧
    (∀ tz, parseTimestamp tz "" = "") := by
  refine ⟨by decide, by decide, by decide, by decide, fun tz => rfl⟩

/-! ## Claim C4: thread key resolution -/

/-- Sorting with the string order is a function of the multiset of
recipients: permuted lists sort to the same list. -/
theorem sortJS_perm_eq {l1 l2 : List String} (h : l1.Perm l2) : sortJS l1 = sortJS l2 := by
  have hs1 : List.Sorted (fun a b : String => a ≤ b) (sortJS l1) :=
    List.sorted_insertionSort _ l1
  have hs2 : List.Sorted (fun a b : String => a ≤ b) (sortJS l2) :=
    List.sorted_insertionSort _ l2
  exact List.eq_of_perm_of_sorted
    (((List.perm_insertionSort _ l1).trans h).trans (List.perm_insertionSort _ l2).symm)
    hs1 hs2

/-- C4: the thread key is the non-empty conversation identifier verbatim;
else with exactly one recipient the hash of that URL; with two or more
recipients the hash of the sorted pipe-joined URL list, which makes the
key invariant under permutation of the recipient list; and with no
recipient the hash of participant and day bucket, the participant being
the to field when present, else the from field, and the day bucket of the
empty instant being the token unknown. -/
theorem c4_threadKey (tz : Int) (convId toF frm ts r1 r2 : String) :
    (convId ≠ "" → resolveThreadId tz convId toF frm ts r1 = convId) ∧
    (convId = "" → ∀ u, recipientsOf r1 = [u] →
      resolveThreadId tz convId toF frm ts r1 = stableHash u) ∧
    (convId = "" → 2 ≤ (recipientsOf r1).length →
      resolveThreadId tz convId toF frm ts r1 =
        stableHash (joinSep "|" (sortJS (recipientsOf r1)))) ∧
    (convId = "" → recipientsOf r1 = [] →
      resolveThreadId tz convId toF frm ts r1 =
        stableHash ((if toF ≠ "" then toF else frm) ++ "|" ++ getDayBucket tz ts)) ∧
    (convId = "" → (recipientsOf r1).Perm (recipientsOf r2) →
      resolveThreadId tz convId toF frm ts r1 = resolveThreadId tz convId toF frm ts r2) ∧
    getDayBucket tz "" = "unknown" := by
  refine ⟨?_, ?_, ?_, ?_, ?_, rfl⟩
  · intro h
    simp [resolveThreadId, h]
  · intro h u hr
    simp [resolveThreadId, h, hr]
  · intro h hlen
    match hr : recipientsOf r1 with
    | [] => rw [hr] at hlen; simp at hlen
    | [u] => rw [hr] at hlen; simp at hlen
    | a :: b :: rest => simp [resolveThreadId, h, hr]
  · intro h hr
    simp [resolveThreadId, h, hr]
  · intro h hperm
    match hr1 : recipientsOf r1, hr2 : recipientsOf r2 with
    | [], l2 =>
      rw [hr1, hr2] at hperm
      have : l2 = [] := (List.perm_nil.mp hperm.symm)
      subst this
      simp [resolveThreadId, h, hr1, hr2]
    | [u], l2 =>
      rw [hr1, hr2] at hperm
      have : l2 = [u] := List.perm_singleton.mp hperm.symm
      subst this
      simp [resolveThreadId, h, hr1, hr2]
    | a :: b :: rest, l2 =>
      rw [hr1, hr2] at hperm
      have hlen2 : 2 ≤ l2.length := by
        have := hperm.length_eq
        simp at this
        omega
      match l2, hlen2 with
      | c :: d :: rest2, _ =>
        have hsort := sortJS_perm_eq hperm
        simp [resolveThreadId, h, hr1, hr2, hsort]

/-- Witness of C4: the recipient lists a,b and b,a yield the same thread
key. -/
theorem c4_threadKey_witness :
    recipientsOf "a,b" = ["a", "b"] ∧
    (recipientsOf "a,b").Perm (recipientsOf "b,a") ∧
    resolveThreadId 0 "" "" "" "" "a,b" = resolveThreadId 0 "" "" "" "" "b,a" :=
  ⟨by decide, by decide,
    (c4_threadKey 0 "" "" "" "" "a,b" "b,a").2.2.2.2.1 rfl (by decide)⟩

/-! ## Claim C8: contact identity hash from the URL alone -/

/-- C8: when the resolved profile URL is non-empty the contact identity
hash is the stable hash of the URL alone, so any two rows resolving to
the same non-empty URL produce the same hash whatever their company,
position or connection instant. -/
theorem c8_urlHash (tz : Int) (headers r1 r2 : List String) (u : String)
    (hu : u ≠ "")
    (h1 : getValueByAliases r1 headers connUrl = u)
    (h2 : getValueByAliases r2 headers connUrl = u) :
    (contactOfRow tz headers r1).id = stableHash u ∧
    (contactOfRow tz headers r1).id = (contactOfRow tz headers r2).id := by
  constructor
  · simp [contactOfRow, h1, hu]
  · simp [contactOfRow, h1, h2, hu]

/-- Witness of C8 at two concrete rows sharing a URL. -/
theorem c8_urlHash_witness :
    ("https://a" : String) ≠ "" ∧
    getValueByAliases c8Row1 c8Headers connUrl = "https://a" ∧
    getValueByAliases c8Row2 c8Headers connUrl = "https://a" ∧
    (contactOfRow 0 c8Headers c8Row1).id = stableHash "https://a" ∧
    (contactOfRow 0 c8Headers c8Row1).id = (contactOfRow 0 c8Headers c8Row2).id :=
  ⟨by decide, by decide, by decide,
    (c8_urlHash 0 c8Headers c8Row1 c8Row2 "https://a" (by decide) (by decide) (by decide)).1,
    (c8_urlHash 0 c8Headers c8Row1 c8Row2 "https://a" (by decide) (by decide) (by decide)).2⟩

/-! ## Claim C9: saved job admission, defaults and identity hash -/

/-- C9: a saved-job row is admitted exactly when company or title is
non-empty, the missing field defaults to Unknown on the record, and the
identity hash is the stable hash of the pipe-joined extracted company,
title and instant; the normalizer applies this row function to every
non-empty data row after the header row. -/
theorem c9_savedJob (tz : Int) (headers row : List String) (raw : List (List String))
    (name : String) (b : Bool) (hlen : 2 ≤ raw.length) :
    (jobOfRow tz headers row = none ↔
      (getValueByAliases row headers sjCompany = "" ∧
       getValueByAliases row headers sjTitle = "")) ∧
    (∀ j, jobOfRow tz headers row = some j →
      j.company = (if getValueByAliases row headers sjCompany = "" then "Unknown"
        else getValueByAliases row headers sjCompany) ∧
      j.title = (if getValueByAliases row headers sjTitle = "" then "Unknown"
        else getValueByAliases row headers sjTitle) ∧
      j.ts = parseTimestamp tz (getValueByAliases row headers sjDate) ∧
      j.id = stableHash (getValueByAliases row headers sjCompany ++ "|" ++
        getValueByAliases row headers sjTitle ++ "|" ++
        parseTimestamp tz (getValueByAliases row headers sjDate))) ∧
    (processSavedJobs tz raw name b).1 =
      ((raw.drop 1).filter nonEmptyRow).filterMap
        (jobOfRow tz ((raw.headD []).map normalizeText)) := by
  refine ⟨?_, ?_, ?_⟩
  · by_cases h : getValueByAliases row headers sjTitle = "" ∧
        getValueByAliases row headers sjCompany = ""
    · simp [jobOfRow, h, h.1, h.2]
    · simp only [jobOfRow, if_neg h]
      simp only [ne_eq, reduceCtorEq, false_iff]
      tauto
  · intro j hj
    by_cases h : getValueByAliases row headers sjTitle = "" ∧
        getValueByAliases row headers sjCompany = ""
    · simp [jobOfRow, h] at hj
    · simp only [jobOfRow, if_neg h] at hj
      injection hj with hj
      subst hj
      exact ⟨rfl, rfl, rfl, rfl⟩
  · unfold processSavedJobs
    have h2 : ¬ raw.length < 2 := by omega
    simp [h2]

/-- Witness of C9: the row with an empty company is admitted, the company
defaults to Unknown and the hash is computed over the raw fields. -/
theorem c9_savedJob_witness :
    jobOfRow 0 c9Headers c9Row = some
      ⟨stableHash "|Engineer|", "Unknown", "Engineer", ""⟩ ∧
    (jobOfRow 0 c9Headers c9Row = none ↔
      (getValueByAliases c9Row c9Headers sjCompany = "" ∧
       getValueByAliases c9Row c9Headers sjTitle = "")) :=
  ⟨by decide,
    (c9_savedJob 0 c9Headers c9Row [c9Headers, c9Row] "Saved Jobs.csv" false
      (by decide)).1⟩

/-! ## Claim C1: shape and entropy of the stable hash -/

/-- Every hex digit lands in the hex alphabet. -/
theorem hexDigit_mem (n : Nat) : hexDigit n ∈ hexChars := by
  unfold hexDigit
  by_cases h : n < hexChars.length
  · rw [List.getD_eq_getElem hexChars '0' h]
    exact List.getElem_mem h
  · rw [List.getD_eq_default]
    · decide
    · omega

/-- Both characters of a byte rendering are hex digits. -/
theorem byteToHex_mem {c : Char} {b : Nat} (h : c ∈ byteToHex b) : c ∈ hexChars := by
  simp [byteToHex] at h
  rcases h with rfl | rfl <;> exact hexDigit_mem _

/-- The digest has twenty bytes. -/
theorem sha1Bytes_length (msg : List Nat) : (sha1Bytes msg).length = 20 := by
  simp [sha1Bytes, wordBytes]

/-- The hex rendering doubles the length. -/
theorem flatMap_byteToHex_length (l : List Nat) :
    (l.flatMap byteToHex).length = 2 * l.length := by
  induction l with
  | nil => rfl
  | cons b rest ih => simp [byteToHex, ih]; omega

/-- The digest hex string has forty characters. -/
theorem sha1Hex_length (msg : List Nat) : (sha1Hex msg).length = 40 := by
  unfold sha1Hex
  rw [flatMap_byteToHex_length, sha1Bytes_length]

/-- The truncated stable hash has exactly twelve characters. -/
theorem stableHash_length (s : String) : (stableHash s).data.length = 12 := by
  show ((sha1Hex (utf8Encode s)).take 12).length = 12
  rw [List.length_take, sha1Hex_length]
  decide

/-- Every character of the stable hash is a hex digit. -/
theorem stableHash_chars {s : String} {c : Char} (h : c ∈ (stableHash s).data) :
    c ∈ hexChars := by
  have h2 : c ∈ sha1Hex (utf8Encode s) := List.mem_of_mem_take h
  obtain ⟨b, _, hb⟩ := List.mem_flatMap.mp h2
  exact byteToHex_mem hb

/-- hexVal inverts hexDigit on the alphabet. -/
theorem hexDigit_hexVal {c : Char} (h : c ∈ hexChars) : hexDigit (hexVal c) = c := by
  have hall : ∀ x ∈ hexChars, hexDigit (hexVal x) = x := by decide
  exact hall c h

/-- Equality of strings with equal character data. -/
theorem stringEqOfData {x y : String} (h : x.data = y.data) : x = y := by
  cases x
  cases y
  cases h
  rfl

/-- Any finite set of stable-hash outputs has at most 16 to the 12
elements: the outputs embed into the twelve-position hex codes. -/
theorem stableHash_card_bound (S : Finset String)
    (hmem : ∀ x ∈ S, ∃ s, stableHash s = x) : S.card ≤ 16 ^ 12 := by
  have hval : ∀ c ∈ hexChars, hexVal c < 16 := by decide
  have hshape : ∀ x ∈ S, x.data.length = 12 ∧ ∀ c ∈ x.data, c ∈ hexChars := by
    intro x hx
    obtain ⟨s, rfl⟩ := hmem x hx
    exact ⟨stableHash_length s, fun c hc => stableHash_chars hc⟩
  have hcard : S.card ≤ (Finset.univ : Finset (Fin 12 → Fin 16)).card := by
    refine Finset.card_le_card_of_injOn hashCode (fun x _ => Finset.mem_univ _) ?_
    intro x hx y hy hxy
    obtain ⟨hlx, hcx⟩ := hshape x hx
    obtain ⟨hly, hcy⟩ := hshape y hy
    refine stringEqOfData (List.ext_getElem (hlx.trans hly.symm) ?_)
    intro i h1 h2
    have hi : i < 12 := by omega
    have hfi := congrFun hxy ⟨i, hi⟩
    have e1 : x.data.getD i '0' = x.data[i] := List.getD_eq_getElem x.data '0' h1
    have e2 : y.data.getD i '0' = y.data[i] := List.getD_eq_getElem y.data '0' h2
    have m1 : x.data[i] ∈ hexChars := hcx _ (List.getElem_mem h1)
    have m2 : y.data[i] ∈ hexChars := hcy _ (List.getElem_mem h2)
    have v1 : hexVal x.data[i] < 16 := hval _ m1
    have v2 : hexVal y.data[i] < 16 := hval _ m2
    have h3 : hexVal (x.data.getD i '0') % 16 = hexVal (y.data.getD i '0') % 16 :=
      congrArg Fin.val hfi
    rw [e1, e2] at h3
    rw [Nat.mod_eq_of_lt v1, Nat.mod_eq_of_lt v2] at h3
    have this := h3
    calc x.data[i] = hexDigit (hexVal x.data[i]) := (hexDigit_hexVal m1).symm
      _ = hexDigit (hexVal y.data[i]) := by rw [this]
      _ = y.data[i] := hexDigit_hexVal m2
  calc S.card ≤ (Finset.univ : Finset (Fin 12 → Fin 16)).card := hcard
    _ = 16 ^ 12 := by
      rw [Finset.card_univ, Fintype.card_fun]
      simp

/-- C1 counterexample: there is no family of two to the sixty-four
distinct stable-hash outputs; the truncated output space has at most two
to the forty-eight values, so the claimed sixty-four bits of entropy do
not exist. -/
theorem c1_counterexample :
    ¬ ∃ S : Finset String, 2 ^ 64 ≤ S.card ∧ ∀ x ∈ S, ∃ s, stableHash s = x := by
  rintro ⟨S, hcard, hmem⟩
  have := stableHash_card_bound S hmem
  have h16 : (16 : Nat) ^ 12 < 2 ^ 64 := by norm_num
  omega

/-- C1 amended: the stable hash is the SHA-1 digest of the UTF-8 bytes of
the pipe-joined identity fields, hex encoded and truncated to twelve hex
characters, a fixed-width platform-independent output retaining
forty-eight bits of entropy: every output has exactly twelve hex
characters, and any set of distinct outputs has at most two to the
forty-eight elements. -/
theorem c1_amended :
    (∀ s, (stableHash s).data.length = 12 ∧ ∀ c ∈ (stableHash s).data, c ∈ hexChars) ∧
    (∀ S : Finset String, (∀ x ∈ S, ∃ s, stableHash s = x) → S.card ≤ 2 ^ 48) := by
  constructor
  · exact fun s => ⟨stableHash_length s, fun c hc => stableHash_chars hc⟩
  · intro S hmem
    have := stableHash_card_bound S hmem
    have : (16 : Nat) ^ 12 = 2 ^ 48 := by norm_num
    omega

/-- Witness of the amended C1 at a concrete input and a concrete
singleton output set. -/
theorem c1_amended_witness :
    (stableHash "x").data.length = 12 ∧
    ({stableHash "x"} : Finset String).card ≤ 2 ^ 48 :=
  ⟨(c1_amended.1 "x").1,
    c1_amended.2 {stableHash "x"}
      (fun _y hy => ⟨"x", (Finset.mem_singleton.mp hy).symm⟩)⟩

/-! ## Claim C7: the ten-row header scan -/

/-- The scan returns nothing exactly when no cell of the window rows
normalizes to the marker. -/
theorem findMarkerAux_none_iff (marker : String) :
    ∀ (fuel i : Nat) (l : List (List String)),
      findMarkerAux marker fuel i l = none ↔
        ∀ r ∈ l.take fuel, ∀ c ∈ r, normalizeText c ≠ marker := by
  intro fuel
  induction fuel with
  | zero => intro i l; simp [findMarkerAux]
  | succ fuel ih =>
    intro i l
    match l with
    | [] => simp [findMarkerAux]
    | r :: rest =>
      by_cases h : r.any (fun cell => normalizeText cell == marker)
      · simp only [findMarkerAux, h, if_true]
        rw [List.any_eq_true] at h
        obtain ⟨c, hc, hcm⟩ := h
        simp only [List.take_succ_cons, List.mem_cons]
        constructor
        · intro hfalse
          exact absurd hfalse (Option.some_ne_none _)
        · intro hall
          exact absurd (beq_iff_eq.mp hcm) (hall r (Or.inl rfl) c hc)
      · simp only [findMarkerAux, h, Bool.false_eq_true, if_false]
        rw [ih (i + 1) rest]
        simp only [List.take_succ_cons, List.mem_cons]
        constructor
        · intro hrest s hs c hc
          rcases hs with rfl | hs
          · intro hcm
            exact h (List.any_eq_true.mpr ⟨c, hc, beq_iff_eq.mpr hcm⟩)
          · exact hrest s hs c hc
        · intro hall s hs c hc
          exact hall s (Or.inr hs) c hc

/-- A successful scan identifies a marker row inside the window and
returns its normalized cells. -/
theorem findMarkerAux_some (marker : String) :
    ∀ (fuel i j : Nat) (l : List (List String)) (hs : List String),
      findMarkerAux marker fuel i l = some (j, hs) →
      i ≤ j ∧ j - i < fuel ∧ j - i < l.length ∧
        (∃ c ∈ l.getD (j - i) [], normalizeText c = marker) ∧
        hs = (l.getD (j - i) []).map normalizeText := by
  intro fuel
  induction fuel with
  | zero => intro i j l hs h; exact absurd h (by simp [findMarkerAux])
  | succ fuel ih =>
    intro i j l hs h
    match l with
    | [] => exact absurd h (by simp [findMarkerAux])
    | r :: rest =>
      by_cases hmark : r.any (fun cell => normalizeText cell == marker)
      · simp only [findMarkerAux, hmark, if_true, Option.some_inj, Prod.mk.injEq] at h
        obtain ⟨rfl, rfl⟩ := h
        obtain ⟨c, hc, hcm⟩ := List.any_eq_true.mp hmark
        refine ⟨le_refl _, by omega, by simp, ?_, ?_⟩
        · simp only [Nat.sub_self, List.getD]
          exact ⟨c, by simpa using hc, beq_iff_eq.mp hcm⟩
        · simp [Nat.sub_self, List.getD]
      · simp only [findMarkerAux, hmark, Bool.false_eq_true, if_false] at h
        obtain ⟨hij, hfuel, hlen, hex, hhs⟩ := ih (i + 1) j rest hs h
        have hk : j - i = (j - (i + 1)) + 1 := by omega
        refine ⟨by omega, by omega, ?_, ?_, ?_⟩
        · simp only [List.length_cons]; omega
        · rw [hk]; simpa using hex
        · rw [hk]; simpa using hhs

/-- C7 amended: for a Connections input the normalizer scans at most the
first ten rows for a cell equal to First Name after normalization: when no
window row holds the marker the file yields zero records and one warning;
when the scan matches at index i, the index lies inside the window, the
matched row holds the marker, the returned headers are its normalized
cells, and every produced contact derives from the rows after the matched
header, the preamble rows being discarded. -/
theorem c7_amended (tz : Int) (raw : List (List String)) (name : String) :
    ((∀ r ∈ raw.take 10, ∀ c ∈ r, normalizeText c ≠ "First Name") →
      processConnections tz raw name =
        ([], ["Connections: Could not find header row with \"First Name\" in " ++ name])) ∧
    (∀ i hs, findConnHeader raw = some (i, hs) →
      i < 10 ∧ i < raw.length ∧
      (∃ c ∈ raw.getD i [], normalizeText c = "First Name") ∧
      hs = (raw.getD i []).map normalizeText ∧
      (processConnections tz raw name).1 =
        ((raw.drop (i + 1)).filter nonEmptyRow).map (contactOfRow tz hs)) := by
  constructor
  · intro hall
    have hnone : findConnHeader raw = none :=
      (findMarkerAux_none_iff "First Name" 10 0 raw).mpr hall
    unfold processConnections
    rw [hnone]
  · intro i hs h
    obtain ⟨_, hfuel, hlen, hex, hhs⟩ := findMarkerAux_some "First Name" 10 0 i raw hs h
    simp only [Nat.sub_zero] at hfuel hlen hex hhs
    refine ⟨hfuel, hlen, hex, hhs, ?_⟩
    unfold processConnections
    rw [show findConnHeader raw = some (i, hs) from h]

/-- Witness of the amended C7: a Connections file whose first ten rows
hold no First Name cell yields no contact and the warning. -/
theorem c7_amended_witness :
    (∀ r ∈ ([["Notes:"], ["a", "b"]] : List (List String)).take 10,
      ∀ c ∈ r, normalizeText c ≠ "First Name") ∧
    processConnections 0 [["Notes:"], ["a", "b"]] "Connections.csv" =
      ([], ["Connections: Could not find header row with \"First Name\" in Connections.csv"]) :=
  ⟨by decide, (c7_amended 0 [["Notes:"], ["a", "b"]] "Connections.csv").1 (by decide)⟩

/-- C7 counterexample: the messages normalizer performs no header scan.
On an input whose marker row sits at index one, inside the claimed
ten-row window, the code takes the preamble row as the header and yields
zero records, while the scanning resolver of the claim finds the header,
discards the preamble and yields the one data row. -/
theorem c7_counterexample :
    findMarkerAux "CONTENT" 10 0 c7Raw = some (1, ["CONTENT"]) ∧
    (processMessages 0 c7Raw "messages.csv").1 = [] ∧
    ((specProcessMessagesScan 0 c7Raw "messages.csv").1.map (fun m => m.body)) = ["hi"] ∧
    (processMessages 0 c7Raw "messages.csv").1 ≠
      (specProcessMessagesScan 0 c7Raw "messages.csv").1 := by
  refine ⟨by decide, by decide, by decide, by decide⟩

/-! ## Claim C10: normalization invariants -/

/-- squeeze keeps only characters of its input. -/
theorem squeezeAux_mem : ∀ (l : List Char) (p c : Char), c ∈ squeezeAux p l → c ∈ l := by
  intro l
  induction l with
  | nil => intro p c h; simp [squeezeAux] at h
  | cons a rest ih =>
    intro p c h
    unfold squeezeAux at h
    split at h
    · exact List.mem_cons_of_mem a (ih p c h)
    · rcases List.mem_cons.mp h with rfl | h2
      · exact List.mem_cons_self c rest
      · exact List.mem_cons_of_mem a (ih a c h2)

/-- squeeze keeps the head. -/
theorem squeeze_head? (l : List Char) : (squeeze l).head? = l.head? := by
  cases l <;> rfl

/-- squeeze keeps the last element. -/
theorem squeezeAux_getLast? : ∀ (l : List Char) (p : Char),
    (p :: squeezeAux p l).getLast? = (p :: l).getLast? := by
  intro l
  induction l with
  | nil => intro p; rfl
  | cons a rest ih =>
    intro p
    unfold squeezeAux
    split
    · next hsp =>
      rw [ih p, List.getLast?_cons_cons]
      cases rest with
      | nil => simp [hsp.1, hsp.2]
      | cons b rs => rw [List.getLast?_cons_cons, List.getLast?_cons_cons]
    · rw [List.getLast?_cons_cons, List.getLast?_cons_cons, ih a]

/-- The squeezed list has no two adjacent spaces. -/
theorem squeezeAux_chain : ∀ (l : List Char) (p : Char),
    List.Chain' nodouble (p :: squeezeAux p l) := by
  intro l
  induction l with
  | nil => intro p; simp [squeezeAux]
  | cons a rest ih =>
    intro p
    unfold squeezeAux
    split
    · exact ih p
    · next hns =>
      rw [List.chain'_cons']
      refine ⟨?_, ih a⟩
      intro y hy
      simp at hy
      subst hy
      exact hns

/-- squeeze leaves a list with no two adjacent spaces unchanged. -/
theorem squeezeAux_fix : ∀ (l : List Char) (p : Char),
    List.Chain' nodouble (p :: l) → squeezeAux p l = l := by
  intro l
  induction l with
  | nil => intro p _; rfl
  | cons a rest ih =>
    intro p h
    have h1 : nodouble p a := (List.chain'_cons.mp h).1
    have h2 : List.Chain' nodouble (a :: rest) := (List.chain'_cons.mp h).2
    unfold squeezeAux
    rw [if_neg h1, ih a h2]

/-- The head of a dropWhile result fails the predicate. -/
theorem dropWhile_head_false (p : Char → Bool) :
    ∀ (l : List Char) (c : Char), (l.dropWhile p).head? = some c → p c = false := by
  intro l
  induction l with
  | nil => intro c h; simp at h
  | cons a rest ih =>
    intro c h
    rw [List.dropWhile_cons] at h
    split at h
    · exact ih c h
    · next hp =>
      simp at h
      subst h
      simpa using hp

/-- A non-empty dropWhile result keeps the last element. -/
theorem dropWhile_getLast (p : Char → Bool) :
    ∀ (l : List Char), l.dropWhile p ≠ [] → (l.dropWhile p).getLast? = l.getLast? := by
  intro l
  induction l with
  | nil => intro h; simp at h
  | cons a rest ih =>
    intro h
    rw [List.dropWhile_cons] at h ⊢
    split
    · next hp =>
      rw [ih (by simpa [List.dropWhile_cons, hp] using h)]
      cases hr : rest with
      | nil =>
        subst hr
        simp [List.dropWhile_nil] at h
        simp [hp] at h
      | cons b rs => rw [List.getLast?_cons_cons]
    · rfl

/-- dropWhile leaves a list whose head fails the predicate unchanged. -/
theorem dropWhile_eq_self (p : Char → Bool) (l : List Char)
    (h : ∀ c, l.head? = some c → p c = false) : l.dropWhile p = l := by
  cases l with
  | nil => rfl
  | cons a rest =>
    rw [List.dropWhile_cons, if_neg]
    simp [h a rfl]

/-- dropWhile preserves the adjacency chain. -/
theorem dropWhile_chain (p : Char → Bool) :
    ∀ (l : List Char), List.Chain' nodouble l →
      List.Chain' nodouble (l.dropWhile p) := by
  intro l
  induction l with
  | nil => intro h; simp
  | cons a rest ih =>
    intro h
    rw [List.dropWhile_cons]
    split
    · exact ih h.tail
    · exact h

/-- The reversal of a no-double-space list has no double space. -/
theorem chain_reverse_nodouble {l : List Char} (h : List.Chain' nodouble l) :
    List.Chain' nodouble l.reverse := by
  rw [List.chain'_reverse]
  exact h.imp fun a b hab hc => hab ⟨hc.2, hc.1⟩

/-- Trimming keeps only characters of the input. -/
theorem jsTrimL_mem {l : List Char} {c : Char} (h : c ∈ jsTrimL l) : c ∈ l := by
  unfold jsTrimL at h
  have h1 := (List.dropWhile_sublist isJsWs).mem h
  rw [List.mem_reverse] at h1
  have h2 := (List.dropWhile_sublist isJsWs).mem h1
  rwa [List.mem_reverse] at h2

/-- Trimming preserves the adjacency chain. -/
theorem jsTrimL_chain {l : List Char} (h : List.Chain' nodouble l) :
    List.Chain' nodouble (jsTrimL l) :=
  dropWhile_chain _ _ (chain_reverse_nodouble (dropWhile_chain _ _ (chain_reverse_nodouble h)))

/-- The head after trimming is no whitespace. -/
theorem jsTrimL_head {l : List Char} {c : Char} (h : (jsTrimL l).head? = some c) :
    isJsWs c = false :=
  dropWhile_head_false isJsWs _ c h

/-- The last character after trimming is no whitespace. -/
theorem jsTrimL_last {l : List Char} {c : Char} (h : (jsTrimL l).getLast? = some c) :
    isJsWs c = false := by
  unfold jsTrimL at h
  have hne : List.dropWhile isJsWs (List.dropWhile isJsWs l.reverse).reverse ≠ [] := by
    intro hnil
    rw [hnil] at h
    simp at h
  rw [dropWhile_getLast isJsWs _ hne] at h
  rw [← List.head?_reverse, List.reverse_reverse] at h
  exact dropWhile_head_false isJsWs _ c h

/-- Trimming fixes a list without whitespace at either end. -/
theorem jsTrimL_fix {l : List Char}
    (hh : ∀ c, l.head? = some c → isJsWs c = false)
    (hl : ∀ c, l.getLast? = some c → isJsWs c = false) : jsTrimL l = l := by
  unfold jsTrimL
  rw [dropWhile_eq_self isJsWs l.reverse (by
    intro c hc
    rw [List.head?_reverse] at hc
    exact hl c hc)]
  rw [List.reverse_reverse]
  exact dropWhile_eq_self isJsWs l hh

/-- wsToSpace fixes a list whose whitespace is already spaces. -/
theorem map_wsToSpace_fix : ∀ (l : List Char),
    (∀ c ∈ l, isJsWs c = true → c = ' ') → l.map wsToSpace = l := by
  intro l
  induction l with
  | nil => intro _; rfl
  | cons a rest ih =>
    intro h
    have ha : wsToSpace a = a := by
      unfold wsToSpace
      split
      · next hws => exact (h a (List.mem_cons_self a rest) hws).symm
      · rfl
    rw [List.map_cons, ha, ih (fun c hc => h c (List.mem_cons_of_mem a hc))]

/-- The image of wsToSpace has whitespace only as spaces. -/
theorem map_wsToSpace_ws (l : List Char) :
    ∀ c ∈ l.map wsToSpace, isJsWs c = true → c = ' ' := by
  intro c hc hws
  obtain ⟨c0, _, rfl⟩ := List.mem_map.mp hc
  unfold wsToSpace at hws ⊢
  split
  · rfl
  · next hns =>
    rw [if_neg hns] at hws
    exact absurd hws (by simpa using hns)

/-- The full list-level normalization always produces a normalized
list. -/
theorem normalizeTextL_normalized (l : List Char) : NormalizedL (normalizeTextL l) := by
  unfold normalizeTextL
  set m0 := jsTrimL (dropBOM l) with hm0
  set m := m0.map wsToSpace with hm
  have hws : ∀ c ∈ m, isJsWs c = true → c = ' ' := map_wsToSpace_ws m0
  have hhead : ∀ c, m.head? = some c → isJsWs c = false := by
    intro c hc
    rw [hm, List.head?_map] at hc
    cases h0 : m0.head? with
    | none => rw [h0] at hc; simp at hc
    | some c0 =>
      rw [h0] at hc
      simp at hc
      have hc0 : isJsWs c0 = false := jsTrimL_head h0
      rw [← hc]
      unfold wsToSpace
      rw [if_neg (by simp [hc0])]
      exact hc0
  have hlast : ∀ c, m.getLast? = some c → isJsWs c = false := by
    intro c hc
    rw [hm, List.getLast?_map] at hc
    cases h0 : m0.getLast? with
    | none => rw [h0] at hc; simp at hc
    | some c0 =>
      rw [h0] at hc
      simp at hc
      have hc0 : isJsWs c0 = false := jsTrimL_last h0
      rw [← hc]
      unfold wsToSpace
      rw [if_neg (by simp [hc0])]
      exact hc0
  refine ⟨?_, ?_, ?_, ?_⟩
  · intro c hc hcw
    cases hmm : m with
    | nil => rw [hmm] at hc; simp [squeeze] at hc
    | cons a rest =>
      rw [hmm] at hc
      unfold squeeze at hc
      rcases List.mem_cons.mp hc with rfl | hc2
      · exact hws c (by rw [hmm]; exact List.mem_cons_self _ _) hcw
      · exact hws c (by rw [hmm]; exact List.mem_cons_of_mem _ (squeezeAux_mem _ _ _ hc2)) hcw
  · cases hmm : m with
    | nil => simp [squeeze]
    | cons a rest => exact squeezeAux_chain rest a
  · rw [squeeze_head?]
    intro hsp
    have := hhead ' ' hsp
    simp [isJsWs] at this
  · cases hmm : m with
    | nil => simp [squeeze]
    | cons a rest =>
      unfold squeeze
      rw [squeezeAux_getLast?]
      intro hsp
      have := hlast ' ' (by rw [hmm]; exact hsp)
      simp [isJsWs] at this

/-- The list-level normalization fixes a normalized list. -/
theorem normalizeTextL_fix {l : List Char} (h : NormalizedL l) : normalizeTextL l = l := by
  obtain ⟨hws, hch, hhd, hlt⟩ := h
  have hhead : ∀ c, l.head? = some c → isJsWs c = false := by
    intro c hc
    by_contra hcon
    have hcw : isJsWs c = true := by
      cases hb : isJsWs c
      · exact absurd hb hcon
      · rfl
    have : c = ' ' := hws c (List.mem_of_mem_head? hc) hcw
    subst this
    exact hhd hc
  have hlast : ∀ c, l.getLast? = some c → isJsWs c = false := by
    intro c hc
    by_contra hcon
    have hcw : isJsWs c = true := by
      cases hb : isJsWs c
      · exact absurd hb hcon
      · rfl
    have hm : c ∈ l := by
      have := List.mem_of_mem_head? (l := l.reverse) (by rwa [List.head?_reverse])
      rwa [List.mem_reverse] at this
    have : c = ' ' := hws c hm hcw
    subst this
    exact hlt hc
  have hbom : dropBOM l = l := by
    cases l with
    | nil => rfl
    | cons a rest =>
      simp only [dropBOM]
      rw [if_neg]
      intro hfe
      subst hfe
      have := hhead _ rfl
      simp [isJsWs] at this
  unfold normalizeTextL
  rw [hbom, jsTrimL_fix hhead hlast, map_wsToSpace_fix l hws]
  cases l with
  | nil => rfl
  | cons a rest =>
    simp only [squeeze]
    rw [squeezeAux_fix rest a hch]

/-- Every normalizeText output is normalized. -/
theorem normalizeText_normalized (s : String) : NormalizedS (normalizeText s) := by
  unfold normalizeText
  split
  · decide
  · exact normalizeTextL_normalized s.data

/-- normalizeText fixes normalized strings. -/
theorem normalizeText_fix {s : String} (h : NormalizedS s) : normalizeText s = s := by
  unfold normalizeText
  split
  · next he => exact he.symm
  · rw [normalizeTextL_fix h]

/-- normalizeText is idempotent. -/
theorem normalizeText_idem (s : String) :
    normalizeText (normalizeText s) = normalizeText s :=
  normalizeText_fix (normalizeText_normalized s)

/-- Every resolved field value is normalized. -/
theorem gv_normalized (row headers : List String) (al : List Alias) :
    NormalizedS (getValueByAliases row headers al) := by
  unfold getValueByAliases
  split
  · exact normalizeText_normalized _
  · decide

/-- Every resolved field value is a fixed point of normalizeText. -/
theorem gv_fix (row headers : List String) (al : List Alias) :
    normalizeText (getValueByAliases row headers al) =
      getValueByAliases row headers al :=
  normalizeText_fix (gv_normalized row headers al)

/-- Trimming a list whose whitespace is single interior spaces gives a
normalized list. -/
theorem trim_weak_normalized {l : List Char}
    (h1 : ∀ c ∈ l, isJsWs c = true → c = ' ')
    (h2 : List.Chain' nodouble l) : NormalizedL (jsTrimL l) := by
  refine ⟨fun c hc => h1 c (jsTrimL_mem hc), jsTrimL_chain h2, ?_, ?_⟩
  · intro hsp
    have := jsTrimL_head hsp
    simp [isJsWs] at this
  · intro hsp
    have := jsTrimL_last hsp
    simp [isJsWs] at this

/-- The trimmed join of two normalized strings over a single space is
normalized. -/
theorem nameJoin_normalized {a b : String} (ha : NormalizedS a) (hb : NormalizedS b) :
    NormalizedS (String.mk (jsTrimL (a ++ " " ++ b).data)) := by
  obtain ⟨haw, hac, hah, hal⟩ := ha
  obtain ⟨hbw, hbc, hbh, hbl⟩ := hb
  have hdata : (a ++ " " ++ b).data = a.data ++ (' ' :: b.data) := by
    simp [String.data_append]
  show NormalizedL (jsTrimL (a ++ " " ++ b).data)
  rw [hdata]
  refine trim_weak_normalized ?_ ?_
  · intro c hc hcw
    rcases List.mem_append.mp hc with h | h
    · exact haw c h hcw
    · rcases List.mem_cons.mp h with rfl | h2
      · rfl
      · exact hbw c h2 hcw
  · rw [List.chain'_append]
    refine ⟨hac, ?_, ?_⟩
    · rw [List.chain'_cons']
      refine ⟨?_, hbc⟩
      intro y hy hcon
      exact hbh (by rw [← hcon.2]; exact Option.mem_def.mp hy)
    · intro x hx y hy hcon
      exact hal (by rw [← hcon.1]; exact Option.mem_def.mp hx)

/-- The contact display name, the trimmed join defaulted to Unknown, is a
fixed point of normalizeText. -/
theorem nameJoin_fix {a b : String} (ha : NormalizedS a) (hb : NormalizedS b) :
    normalizeText (if String.mk (jsTrimL (a ++ " " ++ b).data) = "" then "Unknown"
      else String.mk (jsTrimL (a ++ " " ++ b).data)) =
    (if String.mk (jsTrimL (a ++ " " ++ b).data) = "" then "Unknown"
      else String.mk (jsTrimL (a ++ " " ++ b).data)) := by
  split
  · decide
  · exact normalizeText_fix (nameJoin_normalized ha hb)

/-- The branchwise fixed point of the counterpart-name selection. -/
theorem counterpart_fix (d x y : String) (hx : NormalizedS x) (hy : NormalizedS y) :
    normalizeText (if d = "sent" then x else y) = (if d = "sent" then x else y) := by
  split
  · exact normalizeText_fix hx
  · exact normalizeText_fix hy

/-- The branchwise fixed point of the Unknown default. -/
theorem unknownDefault_fix (s : String) (hs : NormalizedS s) :
    normalizeText (if s = "" then "Unknown" else s) = (if s = "" then "Unknown" else s) := by
  split
  · decide
  · exact normalizeText_fix hs

/-- An optional field carries the underlying value. -/
theorem orUndef_some {s t : String} (h : orUndef s = some t) : t = s := by
  unfold orUndef at h
  split at h
  · exact absurd h (by simp)
  · exact (Option.some_inj.mp h).symm

/-- Name of a produced contact is a fixed point of normalizeText. -/
theorem contactOfRow_name_fix (tz : Int) (headers row : List String) :
    normalizeText (contactOfRow tz headers row).name = (contactOfRow tz headers row).name :=
  nameJoin_fix (gv_normalized row headers connFirstName)
    (gv_normalized row headers connLastName)

/-- The record list of the Connections normalizer, in closed form. -/
theorem processConnections_fst (tz : Int) (raw : List (List String)) (name : String) :
    (processConnections tz raw name).1 =
      match findConnHeader raw with
      | none => []
      | some (idx, headers) =>
        ((raw.drop (idx + 1)).filter nonEmptyRow).map (contactOfRow tz headers) := by
  rcases hf : findConnHeader raw with - | ⟨i, hs⟩ <;> simp [processConnections, hf]

/-- The record list of the Messages normalizer, in closed form. -/
theorem processMessages_fst (tz : Int) (raw : List (List String)) (name : String) :
    (processMessages tz raw name).1 =
      if raw.length < 2 then []
      else ((raw.drop 1).filter nonEmptyRow).filterMap
        (msgOfRow tz ((raw.headD []).map normalizeText)) := by
  unfold processMessages
  split <;> rfl

/-- The record list of the Invitations normalizer, in closed form. -/
theorem processInvitations_fst (tz : Int) (raw : List (List String)) (name : String) :
    (processInvitations tz raw name).1 =
      if raw.length < 2 then []
      else ((raw.drop 1).filter nonEmptyRow).filterMap
        (inviteOfRow tz ((raw.headD []).map normalizeText)) := by
  unfold processInvitations
  split <;> rfl

/-- The record list of the Company Follows normalizer, in closed form. -/
theorem processCompanyFollows_fst (tz : Int) (raw : List (List String)) (name : String) :
    (processCompanyFollows tz raw name).1 =
      if raw.length < 2 then []
      else ((raw.drop 1).filter nonEmptyRow).filterMap
        (followOfRow tz ((raw.headD []).map normalizeText)) := by
  unfold processCompanyFollows
  split <;> rfl

/-- The record list of the Saved Jobs normalizer, in closed form. -/
theorem processSavedJobs_fst (tz : Int) (raw : List (List String)) (name : String)
    (b : Bool) :
    (processSavedJobs tz raw name b).1 =
      if raw.length < 2 then []
      else ((raw.drop 1).filter nonEmptyRow).filterMap
        (jobOfRow tz ((raw.headD []).map normalizeText)) := by
  unfold processSavedJobs
  by_cases h : raw.length < 2 <;> simp [h]

/-- C10: normalizeText is idempotent, and every stored string field of a
produced record, the contact name and optional title, company and
location, the message body, the invite counterpart name, the company
follow name and the saved job company and title, is a fixed point of
normalizeText. -/
theorem c10_normalization :
    (∀ s, normalizeText (normalizeText s) = normalizeText s) ∧
    (∀ tz raw name c, c ∈ (processConnections tz raw name).1 →
      normalizeText c.name = c.name ∧
      (∀ t, c.title = some t → normalizeText t = t) ∧
      (∀ t, c.company = some t → normalizeText t = t) ∧
      (∀ t, c.location = some t → normalizeText t = t)) ∧
    (∀ tz raw name m, m ∈ (processMessages tz raw name).1 →
      normalizeText m.body = m.body) ∧
    (∀ tz raw name v, v ∈ (processInvitations tz raw name).1 →
      normalizeText v.counterpartName = v.counterpartName) ∧
    (∀ tz raw name cf, cf ∈ (processCompanyFollows tz raw name).1 →
      normalizeText cf.company = cf.company) ∧
    (∀ tz raw name b j, j ∈ (processSavedJobs tz raw name b).1 →
      normalizeText j.company = j.company ∧ normalizeText j.title = j.title) := by
  refine ⟨normalizeText_idem, ?_, ?_, ?_, ?_, ?_⟩
  · intro tz raw name c hc
    rw [processConnections_fst] at hc
    split at hc
    · simp at hc
    · obtain ⟨row, -, rfl⟩ := List.mem_map.mp hc
      refine ⟨contactOfRow_name_fix tz _ row, ?_, ?_, ?_⟩
      · intro t ht
        rw [orUndef_some (show orUndef (getValueByAliases row _ connPosition) = some t from ht)]
        exact gv_fix _ _ _
      · intro t ht
        rw [orUndef_some (show orUndef (getValueByAliases row _ connCompany) = some t from ht)]
        exact gv_fix _ _ _
      · intro t ht
        rw [orUndef_some (show orUndef (getValueByAliases row _ connLocation) = some t from ht)]
        exact gv_fix _ _ _
  · intro tz raw name m hm
    rw [processMessages_fst] at hm
    split at hm
    · simp at hm
    · obtain ⟨row, -, hrow⟩ := List.mem_filterMap.mp hm
      by_cases hcont : getValueByAliases row ((raw.headD []).map normalizeText) msgContent = ""
      · simp only [msgOfRow, if_pos hcont] at hrow
        exact absurd hrow (by simp)
      · simp only [msgOfRow, if_neg hcont] at hrow
        injection hrow with hrow
        subst hrow
        exact gv_fix _ _ _
  · intro tz raw name v hv
    rw [processInvitations_fst] at hv
    split at hv
    · simp at hv
    · obtain ⟨row, -, hrow⟩ := List.mem_filterMap.mp hv
      by_cases hpart : getValueByAliases row ((raw.headD []).map normalizeText) invFrom = "" ∧
          getValueByAliases row ((raw.headD []).map normalizeText) invTo = ""
      · simp only [inviteOfRow, if_pos hpart] at hrow
        exact absurd hrow (by simp)
      · simp only [inviteOfRow, if_neg hpart] at hrow
        injection hrow with hrow
        subst hrow
        exact counterpart_fix _ _ _ (gv_normalized _ _ _) (gv_normalized _ _ _)
  · intro tz raw name cf hcf
    rw [processCompanyFollows_fst] at hcf
    split at hcf
    · simp at hcf
    · obtain ⟨row, -, hrow⟩ := List.mem_filterMap.mp hcf
      by_cases horg : getValueByAliases row ((raw.headD []).map normalizeText) cfOrg = ""
      · simp only [followOfRow, if_pos horg] at hrow
        exact absurd hrow (by simp)
      · simp only [followOfRow, if_neg horg] at hrow
        injection hrow with hrow
        subst hrow
        exact gv_fix _ _ _
  · intro tz raw name b j hj
    rw [processSavedJobs_fst] at hj
    split at hj
    · simp at hj
    · obtain ⟨row, -, hrow⟩ := List.mem_filterMap.mp hj
      by_cases hfields : getValueByAliases row ((raw.headD []).map normalizeText) sjTitle = "" ∧
          getValueByAliases row ((raw.headD []).map normalizeText) sjCompany = ""
      · simp only [jobOfRow, if_pos hfields] at hrow
        exact absurd hrow (by simp)
      · simp only [jobOfRow, if_neg hfields] at hrow
        injection hrow with hrow
        subst hrow
        exact ⟨unknownDefault_fix _ (gv_normalized _ _ _),
          unknownDefault_fix _ (gv_normalized _ _ _)⟩

/-- Witness of C10: idempotence at a concrete string and the fixed-point
property at a concrete produced contact. -/
theorem c10_normalization_witness :
    normalizeText (normalizeText "  a  b ") = normalizeText "  a  b " ∧
    c10Contact ∈ (processConnections 0 c10Raw "Connections.csv").1 ∧
    normalizeText c10Contact.name = c10Contact.name :=
  ⟨c10_normalization.1 "  a  b ",
   by decide,
   (c10_normalization.2.1 0 c10Raw "Connections.csv" c10Contact (by decide)).1⟩
